import Mathlib

/-!
# docker_swarm_exporter: the `DockerServices` collector

A shallow embedding of `src/main.go`.  `Collect` walks the fetched services and,
for every service, sends on the channel

* an optional `swarm_service_desired_replicas` sample (lines 91-98),
* one `swarm_service_tasks` sample per entry of the `taskStates` map
  (lines 100-120),
* one `swarm_service_info` sample (lines 123-129),
* one `swarm_service_change_time` sample (lines 131-136).

Modelling decisions, all taken from the Go semantics of the source:

* A Go `panic` (explicit `panic(err)`, a nil pointer dereference, or the panic
  of `MustNewConstMetric`) stops `Collect`; what was sent on the channel before
  stays sent.  The result of a run is an `Outcome`: the samples sent, in order,
  and the panic message if the run panicked.
* `time.Time` values carry no monotonic clock reading (they are decoded from the
  Docker API, or are the zero value).  A `Time` is the pair of seconds since
  January 1, year 1 00:00:00 UTC and nanoseconds within the second, which is
  what `After` and `Unix` of package `time` read.
* A Go map is an association list with pairwise distinct keys.  `range` over a
  map visits every entry once in an unspecified order: the order is a parameter
  of the model (`RangeOrder`), chosen afresh for every `range` statement.
* A sample value is the exact value of the `float64` the source builds.  Task counts
  and Unix seconds stay below `2^53` in magnitude, where `float64(...)` is exact, and
  are sent unchanged.  A desired replica count is an arbitrary `uint64` chosen by the
  user of the cluster: `float64` rounds it to 53 significant bits.
* Integers are unbounded: a task count is at most the length of the task slice,
  and the seconds of a timestamp decoded from RFC 3339 text (years 0000-9999) are
  far inside the `int64` range, so `+= 1` and `Unix()` never wrap.
-/

namespace SwarmExporter

/-! ## Package `time` -/

/-- Wall-clock reading of a Go `time.Time`: `sec` counts seconds since
January 1, year 1 00:00:00 UTC (it may be negative), `nsec` is the nanosecond
offset inside that second. -/
structure Time where
  sec : Int
  nsec : Nat
deriving DecidableEq, Repr

namespace Time

/-- The zero value of `time.Time` (`var lastTaskStatusChange time.Time`):
January 1, year 1, 00:00:00.000000000 UTC. -/
def zero : Time := ⟨0, 0⟩

/-- Seconds from January 1, year 1 to January 1, 1970 (`unixToInternal` of
package `time`): `(1969*365 + 1969/4 - 1969/100 + 1969/400) * 86400`. -/
def unixToInternal : Int := 62135596800

/-- Go `t.After(u)`: `ts > us || ts == us && t.nsec() > u.nsec()`. -/
def After (t u : Time) : Bool :=
  decide (t.sec > u.sec) || (decide (t.sec = u.sec) && decide (t.nsec > u.nsec))

/-- Go `t.Unix()`: seconds elapsed since January 1, 1970 UTC. -/
def Unix (t : Time) : Int := t.sec - unixToInternal

/-- The instant `s` seconds after the Unix epoch (Go `time.Unix(s, 0)`). -/
def ofUnix (s : Int) : Time := ⟨s + unixToInternal, 0⟩

end Time

/-! ## Docker API types (the fields `Collect` reads) -/

/-- Go `swarm.ReplicatedService`: `Replicas *uint64` (a value below `2^64`). -/
structure ReplicatedService where
  Replicas : Option Nat
deriving DecidableEq, Repr

/-- Go `swarm.ServiceMode`; only the `Replicated` pointer is read.  Any other
mode (global, job modes, none) has `Replicated = nil`. -/
structure ServiceMode where
  Replicated : Option ReplicatedService
deriving DecidableEq, Repr

/-- Go `swarm.Annotations`. -/
structure Annotations where
  Name : String
deriving DecidableEq, Repr

/-- Go `swarm.ContainerSpec`. -/
structure ContainerSpec where
  Image : String
deriving DecidableEq, Repr

/-- Go `swarm.TaskSpec`: `ContainerSpec *ContainerSpec`. -/
structure TaskSpec where
  ContainerSpec : Option ContainerSpec
deriving DecidableEq, Repr

/-- Go `swarm.ServiceSpec`. -/
structure ServiceSpec where
  Annotations : Annotations
  TaskTemplate : TaskSpec
  Mode : ServiceMode
deriving DecidableEq, Repr

/-- Go `swarm.Service`. -/
structure Service where
  ID : String
  Spec : ServiceSpec
deriving DecidableEq, Repr

/-- Go `swarm.TaskStatus`. -/
structure TaskStatus where
  Timestamp : Time
  State : String
deriving DecidableEq, Repr

/-- Go `swarm.Task`. -/
structure Task where
  ID : String
  ServiceID : String
  Status : TaskStatus
deriving DecidableEq, Repr

/-! ## Prometheus client types -/

/-- Go `prometheus.Desc` as built by `prometheus.NewDesc(fqName, help,
variableLabels, nil)`. -/
structure Desc where
  fqName : String
  help : String
  variableLabels : List String
deriving DecidableEq, Repr

/-- A constant gauge sample: descriptor, value, label values. -/
structure Metric where
  desc : Desc
  value : Int
  labelValues : List String
deriving DecidableEq, Repr

/-- Number of low bits a `uint64` loses when it is stored in the 53-bit significand
of a `float64`: the least `e` with `n / 2^e < 2^53` (at most 11 for a `uint64`). -/
def droppedBits (n : Nat) : Nat :=
  (([0, 1, 2, 3, 4, 5, 6, 7, 8, 9, 10, 11] : List Nat).find?
    (fun e => decide (n / 2 ^ e < 2 ^ 53))).getD 11

/-- Go `float64(n)` for a `uint64` value `n`, given as the exact value of the
resulting float: `n` rounded to a multiple of `2^(droppedBits n)`, to the nearest
one, ties to the even significand. -/
def float64 (n : Nat) : Nat :=
  if 2 ^ droppedBits n < 2 * (n % 2 ^ droppedBits n) ∨
      (2 * (n % 2 ^ droppedBits n) = 2 ^ droppedBits n ∧ (n / 2 ^ droppedBits n) % 2 = 1) then
    (n / 2 ^ droppedBits n + 1) * 2 ^ droppedBits n
  else
    (n / 2 ^ droppedBits n) * 2 ^ droppedBits n

/-- Go `prometheus.MustNewConstMetric(desc, GaugeValue, value, labelValues...)`:
it panics (here: `Except.error`) when the number of label values differs from
the number of variable labels of the descriptor. -/
def MustNewConstMetric (desc : Desc) (value : Int) (labelValues : List String) :
    Except String Metric :=
  if labelValues.length = desc.variableLabels.length then
    Except.ok ⟨desc, value, labelValues⟩
  else
    Except.error "inconsistent label cardinality"

def replicaCount : Desc :=
  ⟨"swarm_service_desired_replicas", "Number of replicas requested for this service",
    ["service_name"]⟩

def taskCount : Desc :=
  ⟨"swarm_service_tasks", "Number of docker tasks", ["service_name", "state"]⟩

def imageVersion : Desc :=
  ⟨"swarm_service_info", "Information about each service", ["service_name", "image"]⟩

def lastChangeTime : Desc :=
  ⟨"swarm_service_change_time", "Time when a task state last changed", ["service_name"]⟩

/-- Go `Describe`: the descriptors sent on the channel, in order. -/
def Describe : List Desc := [replicaCount, taskCount, imageVersion, lastChangeTime]

/-! ## Outcomes of a run -/

/-- What a piece of `Collect` did: the samples it sent on `ch`, in order, and
the panic message when it panicked. -/
structure Outcome where
  sent : List Metric
  panicked : Option String
deriving DecidableEq, Repr

namespace Outcome

/-- Nothing sent, no panic. -/
def done : Outcome := ⟨[], none⟩

/-- A panic before anything was sent. -/
def panic (e : String) : Outcome := ⟨[], some e⟩

/-- Sequential composition of statements: the second runs only when the first
did not panic. -/
def andThen (a b : Outcome) : Outcome :=
  match a.panicked with
  | some _ => a
  | none => ⟨a.sent ++ b.sent, b.panicked⟩

end Outcome

/-- The statement `ch <- prometheus.MustNewConstMetric(...)`. -/
def send (r : Except String Metric) : Outcome :=
  match r with
  | Except.ok m => ⟨[m], none⟩
  | Except.error e => Outcome.panic e

/-- The runtime panic of dereferencing a nil pointer. -/
def nilDereference : String := "invalid memory address or nil pointer dereference"

/-! ## Go maps -/

/-- The statement `m[k] += 1` on a `map[string]int` held as an association list:
the entry of `k` is incremented, or created with value `1`. -/
def increment : List (String × Nat) → String → List (String × Nat)
  | [], k => [(k, 1)]
  | (k', v) :: rest, k =>
    if k' = k then (k', v + 1) :: rest else (k', v) :: increment rest k

/-- An iteration order for `range` over a map: some permutation of the
entries. -/
structure RangeOrder where
  iter : List (String × Nat) → List (String × Nat)
  perm : ∀ m, List.Perm (iter m) m

/-- The order that visits the entries as stored. -/
def RangeOrder.stored : RangeOrder := ⟨fun m => m, fun m => List.Perm.refl m⟩

/-- The order that visits the entries back to front. -/
def RangeOrder.reversed : RangeOrder := ⟨List.reverse, fun m => List.reverse_perm m⟩

/-! ## `Collect` -/

/-- The variables of the task loop, lines 100-102. -/
structure ScanState where
  taskStates : List (String × Nat)
  lastTaskStatusChange : Time
deriving DecidableEq, Repr

/-- State before the task loop: `taskStates["running"] = 0` and the zero
`time.Time`. -/
def ScanState.init : ScanState := ⟨[("running", 0)], Time.zero⟩

/-- Body of `for _, task := range tasks` (lines 104-109) for the service with
ID `serviceID`. -/
def scanStep (serviceID : String) (st : ScanState) (task : Task) : ScanState :=
  if task.ServiceID = serviceID then
    { taskStates := increment st.taskStates task.Status.State
      lastTaskStatusChange :=
        if task.Status.Timestamp.After st.lastTaskStatusChange then task.Status.Timestamp
        else st.lastTaskStatusChange }
  else st

/-- The task loop, lines 100-110. -/
def scanTasks (serviceID : String) (tasks : List Task) : ScanState :=
  tasks.foldl (scanStep serviceID) ScanState.init

/-- Lines 91-98: the desired-replicas sample. -/
def emitReplicaCount (service : Service) : Outcome :=
  match service.Spec.Mode.Replicated with
  | none => Outcome.done
  | some replicated =>
    match replicated.Replicas with
    | none => Outcome.panic nilDereference
    | some replicas =>
      send (MustNewConstMetric replicaCount (Int.ofNat (float64 replicas))
        [service.Spec.Annotations.Name])

/-- Lines 112-120 on a given sequence of map entries. -/
def emitEntries (name : String) : List (String × Nat) → Outcome
  | [] => Outcome.done
  | (state, count) :: rest =>
    (send (MustNewConstMetric taskCount (Int.ofNat count) [name, state])).andThen
      (emitEntries name rest)

/-- Lines 100-120: the task loop followed by `for state, count := range taskStates`,
the map being visited in the order `ρ`. -/
def emitTaskCount (ρ : RangeOrder) (service : Service) (tasks : List Task) : Outcome :=
  emitEntries service.Spec.Annotations.Name (ρ.iter (scanTasks service.ID tasks).taskStates)

/-- Lines 123-129: the info sample. -/
def emitImageVersion (service : Service) : Outcome :=
  match service.Spec.TaskTemplate.ContainerSpec with
  | none => Outcome.panic nilDereference
  | some containerSpec =>
    send (MustNewConstMetric imageVersion 1 [service.Spec.Annotations.Name, containerSpec.Image])

/-- Lines 131-136: the change-time sample. -/
def emitLastChangeTime (service : Service) (tasks : List Task) : Outcome :=
  send (MustNewConstMetric lastChangeTime (scanTasks service.ID tasks).lastTaskStatusChange.Unix
    [service.Spec.Annotations.Name])

/-- Body of `for _, service := range services`, lines 91-136. -/
def collectService (ρ : RangeOrder) (service : Service) (tasks : List Task) : Outcome :=
  (emitReplicaCount service).andThen
    ((emitTaskCount ρ service tasks).andThen
      ((emitImageVersion service).andThen (emitLastChangeTime service tasks)))

/-- The loop over services, lines 90-137; `ρ i` is the map order of the `i`-th
iteration. -/
def collectServices (ρ : Nat → RangeOrder) : List Service → List Task → Outcome
  | [], _ => Outcome.done
  | service :: rest, tasks =>
    (collectService (ρ 0) service tasks).andThen
      (collectServices (fun i => ρ (i + 1)) rest tasks)

/-- Go `Collect`: `ServiceList` and `TaskList` are the results of the two fetches
(`TaskList` is only looked at when `ServiceList` succeeded); a fetch error is
re-raised with `panic(err)`. -/
def Collect (ρ : Nat → RangeOrder) (ServiceList : Except String (List Service))
    (TaskList : Except String (List Task)) : Outcome :=
  match ServiceList with
  | Except.error err => Outcome.panic err
  | Except.ok services =>
    match TaskList with
    | Except.error err => Outcome.panic err
    | Except.ok tasks => collectServices ρ services tasks

/-! ## Vocabulary of the claims -/

/-- Number of tasks of the service with ID `serviceID`. -/
def ownedCount (serviceID : String) (tasks : List Task) : Nat :=
  tasks.countP (fun t => decide (t.ServiceID = serviceID))

/-- Number of tasks of the service with ID `serviceID` that are in state `state`. -/
def stateCount (serviceID state : String) (tasks : List Task) : Nat :=
  tasks.countP (fun t => decide (t.ServiceID = serviceID) && decide (t.Status.State = state))

/-- A task is an orphan when no fetched service has its `ServiceID`. -/
def isOrphan (services : List Service) (task : Task) : Bool :=
  !(services.any (fun s => decide (s.ID = task.ServiceID)))

/-- The samples of a given descriptor among `ms`, in order. -/
def samplesOf (d : Desc) (ms : List Metric) : List Metric :=
  ms.filter (fun m => decide (m.desc = d))

/-- Go `v, ok := m[k]` on a map held as an association list. -/
def mapGet : List (String × Nat) → String → Option Nat
  | [], _ => none
  | (k', v) :: rest, k => if k' = k then some v else mapGet rest k

/-- The `swarm_service_tasks` sample labelled `(name, state)` with value `count`. -/
def taskCountSample (name state : String) (count : Nat) : Metric :=
  ⟨taskCount, Int.ofNat count, [name, state]⟩

/-- The `swarm_service_info` sample of a service name and image. -/
def infoSample (name image : String) : Metric :=
  ⟨imageVersion, 1, [name, image]⟩

/-- The `swarm_service_desired_replicas` sample of a service name with value
`replicas`. -/
def replicaSample (name : String) (replicas : Nat) : Metric :=
  ⟨replicaCount, Int.ofNat replicas, [name]⟩

/-- The `swarm_service_change_time` sample of a service name and value. -/
def changeTimeSample (name : String) (seconds : Int) : Metric :=
  ⟨lastChangeTime, seconds, [name]⟩

/-- The value passed to `MustNewConstMetric` on line 134:
`lastTaskStatusChange.Unix()` after the task loop for `service`. -/
def changeTimeValue (service : Service) (tasks : List Task) : Int :=
  (scanTasks service.ID tasks).lastTaskStatusChange.Unix

/-- The desired-replicas part of a service's block: one sample, carrying the
`float64` of the count, when the mode is Replicated with a count; nothing otherwise. -/
def replicaBlock (s : Service) : List Metric :=
  match s.Spec.Mode.Replicated with
  | none => []
  | some replicated =>
    match replicated.Replicas with
    | none => []
    | some n => [replicaSample s.Spec.Annotations.Name (float64 n)]

/-- The task-count part of a service's block: one sample per entry of the state-count
map, in the order `ρ` visits the map. -/
def taskBlock (ρ : RangeOrder) (s : Service) (tasks : List Task) : List Metric :=
  (ρ.iter (scanTasks s.ID tasks).taskStates).map
    (fun e => taskCountSample s.Spec.Annotations.Name e.1 e.2)

/-- The info part of a service's block. -/
def infoBlock (s : Service) : List Metric :=
  match s.Spec.TaskTemplate.ContainerSpec with
  | none => []
  | some c => [infoSample s.Spec.Annotations.Name c.Image]

/-- The block of one service: desired replicas (optional), task counts, info,
change time. -/
def serviceBlock (ρ : RangeOrder) (s : Service) (tasks : List Task) : List Metric :=
  replicaBlock s ++ (taskBlock ρ s tasks ++
    (infoBlock s ++ [changeTimeSample s.Spec.Annotations.Name (changeTimeValue s tasks)]))

/-- The blocks of the services, concatenated in fetch order; `ρ i` orders the map of
the `i`-th service. -/
def serviceBlocks (ρ : Nat → RangeOrder) : List Service → List Task → List Metric
  | [], _ => []
  | s :: rest, tasks => serviceBlock (ρ 0) s tasks ++ serviceBlocks (fun i => ρ (i + 1)) rest tasks

/-! ### The specified aggregation algorithm (section 4.2 of the specification)

These definitions follow the words of the specification and share nothing with the
embedding of the source: group the tasks by `ServiceID` in one pass, drop the groups
of unknown services, fold the group of every service into a snapshot. -/

/-- Step 1, one task: append the task to the group of its `ServiceID`, creating
the group if there is none. -/
def specAddToGroup : List (String × List Task) → Task → List (String × List Task)
  | [], t => [(t.ServiceID, [t])]
  | (k, g) :: rest, t =>
    if k = t.ServiceID then (k, g ++ [t]) :: rest else (k, g) :: specAddToGroup rest t

/-- Step 1: the grouping of the tasks by `ServiceID`, built in a single pass. -/
def specGroupByServiceID (tasks : List Task) : List (String × List Task) :=
  tasks.foldl specAddToGroup []

/-- Orphan exclusion: the groups whose key is the ID of a known service. -/
def specDropOrphanGroups (services : List Service)
    (groups : List (String × List Task)) : List (String × List Task) :=
  groups.filter (fun g => services.any (fun s => decide (s.ID = g.1)))

/-- The tasks belonging to a service ID in a grouping (none when it has no group). -/
def specGroupOf : List (String × List Task) → String → List Task
  | [], _ => []
  | (k, g) :: rest, sid => if k = sid then g else specGroupOf rest sid

/-- The derived fields of a `ServiceSnapshot` of the specification: the mapping from
state to count and the instant of the last change. -/
structure Snapshot where
  TaskStateCounts : String → Option Nat
  LastChangeTime : Time

/-- The instant `a` is strictly later than the instant `b`: chronological order of
(seconds, nanoseconds). -/
def specLater (a b : Time) : Bool :=
  decide (toLex (b.sec, b.nsec) < toLex (a.sec, a.nsec))

/-- The snapshot before any task: `"running": 0`, and the zero/epoch value as last
change time (a `change_time` of 0). -/
def specSeed : Snapshot :=
  { TaskStateCounts := fun state => if state = "running" then some 0 else none
    LastChangeTime := Time.ofUnix 0 }

/-- Step 2, one task of the group: increment the counter of its state (creating the
entry if new) and update the last change time if the task's timestamp is strictly
later. -/
def specFoldStep (snap : Snapshot) (t : Task) : Snapshot :=
  { TaskStateCounts := fun state =>
      if state = t.Status.State then some ((snap.TaskStateCounts state).getD 0 + 1)
      else snap.TaskStateCounts state
    LastChangeTime :=
      if specLater t.Status.Timestamp snap.LastChangeTime then t.Status.Timestamp
      else snap.LastChangeTime }

/-- Step 2: the snapshot of one group of tasks. -/
def specFoldGroup (group : List Task) : Snapshot :=
  group.foldl specFoldStep specSeed

/-- The snapshot the specified algorithm computes for one service. -/
def specSnapshot (services : List Service) (tasks : List Task) (s : Service) : Snapshot :=
  specFoldGroup (specGroupOf (specDropOrphanGroups services (specGroupByServiceID tasks)) s.ID)

/-- The specified algorithm: one snapshot per service, in fetch order. -/
def specAggregate (services : List Service) (tasks : List Task) : List Snapshot :=
  services.map (specSnapshot services tasks)

/-- `m` is one of the four samples `Collect` builds for service `s`: descriptor and
label values in the order of the calls on lines 92-97, 113-119, 123-129, 131-136. -/
def IsSampleOf (s : Service) (m : Metric) : Prop :=
  (∃ n : Nat, m = replicaSample s.Spec.Annotations.Name n) ∨
  (∃ (state : String) (count : Nat), m = taskCountSample s.Spec.Annotations.Name state count) ∨
  (∃ image : String, m = infoSample s.Spec.Annotations.Name image) ∨
  (∃ seconds : Int, m = changeTimeSample s.Spec.Annotations.Name seconds)

/-- Number of fetched services that carry the `ServiceID` of a task. -/
def carriers (services : List Service) (t : Task) : Nat :=
  services.countP (fun s => decide (s.ID = t.ServiceID))

/-- Construction helpers for concrete inputs. -/
def mkService (id name : String) (replicated : Option ReplicatedService)
    (containerSpec : Option ContainerSpec) : Service :=
  ⟨id, ⟨⟨name⟩, ⟨containerSpec⟩, ⟨replicated⟩⟩⟩

def mkTask (id serviceID state : String) (timestamp : Time) : Task :=
  ⟨id, serviceID, ⟨timestamp, state⟩⟩

/-! ## Lemmas: sending samples -/

theorem emitEntries_eq (name : String) (l : List (String × Nat)) :
    emitEntries name l = ⟨l.map (fun e => taskCountSample name e.1 e.2), none⟩ := by
  induction l with
  | nil => rfl
  | cons e rest ih =>
    obtain ⟨state, count⟩ := e
    simp [emitEntries, ih, send, MustNewConstMetric, taskCount, Outcome.andThen, taskCountSample]

theorem emitTaskCount_eq (ρ : RangeOrder) (service : Service) (tasks : List Task) :
    emitTaskCount ρ service tasks =
      ⟨(ρ.iter (scanTasks service.ID tasks).taskStates).map
        (fun e => taskCountSample service.Spec.Annotations.Name e.1 e.2), none⟩ := by
  unfold emitTaskCount
  exact emitEntries_eq _ _

theorem emitLastChangeTime_eq (service : Service) (tasks : List Task) :
    emitLastChangeTime service tasks =
      ⟨[changeTimeSample service.Spec.Annotations.Name
        (scanTasks service.ID tasks).lastTaskStatusChange.Unix], none⟩ := by
  simp [emitLastChangeTime, send, MustNewConstMetric, lastChangeTime, changeTimeSample]

/-! ## Lemmas: the map -/

theorem mapGet_increment (m : List (String × Nat)) (k k' : String) :
    mapGet (increment m k) k' =
      if k' = k then some ((mapGet m k).getD 0 + 1) else mapGet m k' := by
  induction m with
  | nil =>
    by_cases h : k' = k
    · simp [increment, mapGet, h]
    · have h' : ¬ k = k' := fun e => h e.symm
      simp [increment, mapGet, h, h']
  | cons e rest ih =>
    obtain ⟨a, v⟩ := e
    by_cases hak : a = k
    · subst hak
      by_cases h : k' = a
      · subst h
        simp [increment, mapGet]
      · have h' : ¬ a = k' := fun e => h e.symm
        simp [increment, mapGet, h, h']
    · by_cases h : k' = k
      · subst h
        simp [increment, mapGet, hak, ih]
      · by_cases hak' : a = k'
        · simp [increment, mapGet, hak, hak', h]
        · simp [increment, mapGet, hak, hak', h, ih]

theorem mem_keys_increment (m : List (String × Nat)) (k k' : String) :
    k' ∈ (increment m k).map Prod.fst ↔ k' = k ∨ k' ∈ m.map Prod.fst := by
  induction m with
  | nil => simp [increment]
  | cons e rest ih =>
    obtain ⟨a, v⟩ := e
    by_cases hak : a = k
    · subst hak
      simp [increment]
    · simp only [increment, hak, if_false, List.map_cons, List.mem_cons, ih]
      tauto

theorem nodup_keys_increment (m : List (String × Nat)) (k : String)
    (h : (m.map Prod.fst).Nodup) : ((increment m k).map Prod.fst).Nodup := by
  induction m with
  | nil => simp [increment]
  | cons e rest ih =>
    obtain ⟨a, v⟩ := e
    rw [List.map_cons, List.nodup_cons] at h
    by_cases hak : a = k
    · subst hak
      simp only [increment, if_true, List.map_cons, List.nodup_cons]
      exact h
    · simp only [increment, hak, if_false, List.map_cons, List.nodup_cons]
      refine ⟨?_, ih h.2⟩
      rw [mem_keys_increment]
      rintro (h1 | h1)
      · exact hak h1
      · exact h.1 h1

theorem sum_increment (m : List (String × Nat)) (k : String) :
    ((increment m k).map Prod.snd).sum = (m.map Prod.snd).sum + 1 := by
  induction m with
  | nil => simp [increment]
  | cons e rest ih =>
    obtain ⟨a, v⟩ := e
    by_cases hak : a = k
    · simp [increment, hak]
      omega
    · simp [increment, hak, ih]
      omega

theorem mapGet_eq_none_iff (m : List (String × Nat)) (k : String) :
    mapGet m k = none ↔ k ∉ m.map Prod.fst := by
  induction m with
  | nil => simp [mapGet]
  | cons e rest ih =>
    obtain ⟨a, v⟩ := e
    by_cases hak : a = k
    · simp [mapGet, hak]
    · have h' : ¬ k = a := fun e => hak e.symm
      simp only [mapGet, hak, if_false, ih, List.map_cons, List.mem_cons, h', false_or]

theorem mem_iff_mapGet (m : List (String × Nat)) (h : (m.map Prod.fst).Nodup)
    (k : String) (c : Nat) : (k, c) ∈ m ↔ mapGet m k = some c := by
  induction m with
  | nil => simp [mapGet]
  | cons e rest ih =>
    obtain ⟨a, v⟩ := e
    rw [List.map_cons, List.nodup_cons] at h
    by_cases hak : a = k
    · subst hak
      have hnot : ∀ c, (a, c) ∉ rest := by
        intro c hc
        exact h.1 (List.mem_map.mpr ⟨(a, c), hc, rfl⟩)
      simp only [mapGet, if_true, List.mem_cons, Prod.mk.injEq, true_and, Option.some.injEq]
      constructor
      · rintro (h1 | h1)
        · exact h1.symm
        · exact absurd h1 (hnot c)
      · intro h1
        exact Or.inl h1.symm
    · have h' : ¬ k = a := fun e => hak e.symm
      simp only [mapGet, hak, if_false, List.mem_cons, Prod.mk.injEq, h', false_and, false_or]
      exact ih h.2

/-! ## Lemmas: the task loop -/

theorem scanStep_owned (sid : String) (st : ScanState) (t : Task) (h : t.ServiceID = sid) :
    scanStep sid st t =
      { taskStates := increment st.taskStates t.Status.State
        lastTaskStatusChange :=
          if t.Status.Timestamp.After st.lastTaskStatusChange then t.Status.Timestamp
          else st.lastTaskStatusChange } := by
  simp [scanStep, h]

theorem scanStep_other (sid : String) (st : ScanState) (t : Task) (h : ¬ t.ServiceID = sid) :
    scanStep sid st t = st := by
  simp [scanStep, h]

theorem stateCount_pos_iff (sid k : String) (tasks : List Task) :
    0 < stateCount sid k tasks ↔
      ∃ t ∈ tasks, t.ServiceID = sid ∧ t.Status.State = k := by
  simp [stateCount, List.countP_pos_iff]

theorem foldl_scanStep_mapGet (sid : String) (tasks : List Task) (st : ScanState) (k : String) :
    mapGet (tasks.foldl (scanStep sid) st).taskStates k =
      if stateCount sid k tasks = 0 then mapGet st.taskStates k
      else some ((mapGet st.taskStates k).getD 0 + stateCount sid k tasks) := by
  induction tasks generalizing st with
  | nil => simp [stateCount]
  | cons t ts ih =>
    rw [List.foldl_cons, ih]
    by_cases ho : t.ServiceID = sid
    · rw [scanStep_owned sid st t ho]
      by_cases hs : t.Status.State = k
      · have hc : stateCount sid k (t :: ts) = stateCount sid k ts + 1 := by
          simp [stateCount, List.countP_cons, ho, hs]
        simp only [mapGet_increment, hc, hs, if_true]
        by_cases h0 : stateCount sid k ts = 0
        · simp [h0]
        · simp only [h0, if_false, Option.getD_some, Nat.succ_ne_zero, Option.some.injEq]
          omega
      · have hc : stateCount sid k (t :: ts) = stateCount sid k ts := by
          simp [stateCount, List.countP_cons, ho, hs]
        have hs' : ¬ k = t.Status.State := fun e => hs e.symm
        simp only [mapGet_increment, hc, hs', if_false]
    · rw [scanStep_other sid st t ho]
      have hc : stateCount sid k (t :: ts) = stateCount sid k ts := by
        simp [stateCount, List.countP_cons, ho]
      rw [hc]

theorem foldl_scanStep_nodup (sid : String) (tasks : List Task) (st : ScanState)
    (h : (st.taskStates.map Prod.fst).Nodup) :
    ((tasks.foldl (scanStep sid) st).taskStates.map Prod.fst).Nodup := by
  induction tasks generalizing st with
  | nil => exact h
  | cons t ts ih =>
    rw [List.foldl_cons]
    apply ih
    by_cases ho : t.ServiceID = sid
    · rw [scanStep_owned sid st t ho]
      exact nodup_keys_increment _ _ h
    · rw [scanStep_other sid st t ho]
      exact h

theorem foldl_scanStep_sum (sid : String) (tasks : List Task) (st : ScanState) :
    ((tasks.foldl (scanStep sid) st).taskStates.map Prod.snd).sum =
      (st.taskStates.map Prod.snd).sum + ownedCount sid tasks := by
  induction tasks generalizing st with
  | nil => simp [ownedCount]
  | cons t ts ih =>
    rw [List.foldl_cons, ih]
    by_cases ho : t.ServiceID = sid
    · rw [scanStep_owned sid st t ho]
      simp only [sum_increment, ownedCount, List.countP_cons, ho, decide_True, if_true]
      omega
    · rw [scanStep_other sid st t ho]
      simp [ownedCount, List.countP_cons, ho]

theorem scanTasks_nodup_keys (sid : String) (tasks : List Task) :
    ((scanTasks sid tasks).taskStates.map Prod.fst).Nodup := by
  unfold scanTasks
  apply foldl_scanStep_nodup
  simp [ScanState.init]

theorem scanTasks_mapGet (sid : String) (tasks : List Task) (k : String) (c : Nat) :
    mapGet (scanTasks sid tasks).taskStates k = some c ↔
      (k = "running" ∨ ∃ t ∈ tasks, t.ServiceID = sid ∧ t.Status.State = k) ∧
        c = stateCount sid k tasks := by
  unfold scanTasks
  rw [foldl_scanStep_mapGet, ← stateCount_pos_iff]
  by_cases h0 : stateCount sid k tasks = 0
  · by_cases hk : k = "running"
    · subst hk
      simp [h0, ScanState.init, mapGet]
      exact eq_comm
    · have hk' : ¬ "running" = k := fun e => hk e.symm
      simp [h0, ScanState.init, mapGet, hk, hk']
  · have hpos : 0 < stateCount sid k tasks := Nat.pos_of_ne_zero h0
    by_cases hk : k = "running"
    · subst hk
      simp [h0, ScanState.init, mapGet]
      exact eq_comm
    · have hk' : ¬ "running" = k := fun e => hk e.symm
      simp [h0, hpos, ScanState.init, mapGet, hk, hk']
      exact eq_comm

theorem scanTasks_mem (sid : String) (tasks : List Task) (k : String) (c : Nat) :
    (k, c) ∈ (scanTasks sid tasks).taskStates ↔
      (k = "running" ∨ ∃ t ∈ tasks, t.ServiceID = sid ∧ t.Status.State = k) ∧
        c = stateCount sid k tasks := by
  rw [mem_iff_mapGet _ (scanTasks_nodup_keys sid tasks), scanTasks_mapGet]

theorem scanTasks_sum (sid : String) (tasks : List Task) :
    ((scanTasks sid tasks).taskStates.map Prod.snd).sum = ownedCount sid tasks := by
  unfold scanTasks
  rw [foldl_scanStep_sum]
  simp [ScanState.init]

theorem scanTasks_of_no_owned (sid : String) (tasks : List Task)
    (h : ownedCount sid tasks = 0) : scanTasks sid tasks = ScanState.init := by
  unfold scanTasks
  generalize ScanState.init = st
  induction tasks generalizing st with
  | nil => rfl
  | cons t ts ih =>
    have ho : ¬ t.ServiceID = sid := by
      intro ho
      simp [ownedCount, List.countP_cons, ho] at h
    have hts : ownedCount sid ts = 0 := by
      simpa [ownedCount, List.countP_cons, ho] using h
    rw [List.foldl_cons, scanStep_other sid st t ho]
    exact ih hts st

theorem taskCountSample_injective (name : String) :
    Function.Injective (fun e : String × Nat => taskCountSample name e.1 e.2) := by
  rintro ⟨k1, c1⟩ ⟨k2, c2⟩ h
  simp only [taskCountSample, Metric.mk.injEq, List.cons.injEq, and_true, true_and,
    Int.ofNat_eq_coe, Nat.cast_inj] at h
  simp [h.1, h.2]

theorem sum_values_taskCountSample (name : String) (l : List (String × Nat)) :
    ((l.map (fun e => taskCountSample name e.1 e.2)).map (fun m => m.value)).sum =
      Int.ofNat ((l.map Prod.snd).sum) := by
  induction l with
  | nil => rfl
  | cons e rest ih =>
    rw [List.map_cons, List.map_cons, List.sum_cons, ih, List.map_cons, List.sum_cons]
    simp [taskCountSample]

/-! ## Lemmas: one iteration of the service loop -/

theorem foldl_scanStep_filter (sid : String) (p : Task → Bool) (tasks : List Task)
    (st : ScanState) (hp : ∀ t ∈ tasks, t.ServiceID = sid → p t = true) :
    (tasks.filter p).foldl (scanStep sid) st = tasks.foldl (scanStep sid) st := by
  induction tasks generalizing st with
  | nil => rfl
  | cons t ts ih =>
    have hts : ∀ t' ∈ ts, t'.ServiceID = sid → p t' = true :=
      fun t' ht' => hp t' (List.mem_cons_of_mem _ ht')
    by_cases hpt : p t = true
    · rw [List.filter_cons_of_pos hpt, List.foldl_cons, List.foldl_cons, ih _ hts]
    · have ho : ¬ t.ServiceID = sid := fun ho => hpt (hp t (List.mem_cons_self _ _) ho)
      rw [List.filter_cons_of_neg hpt, List.foldl_cons, scanStep_other sid st t ho, ih _ hts]

theorem samplesOf_append (d : Desc) (l₁ l₂ : List Metric) :
    samplesOf d (l₁ ++ l₂) = samplesOf d l₁ ++ samplesOf d l₂ := by
  simp [samplesOf]

theorem samplesOf_taskCountSamples (d : Desc) (h : ¬ taskCount = d) (name : String)
    (l : List (String × Nat)) :
    samplesOf d (l.map (fun e => taskCountSample name e.1 e.2)) = [] := by
  induction l with
  | nil => rfl
  | cons e rest ih =>
    rw [List.map_cons]
    unfold samplesOf at ih ⊢
    rw [List.filter_cons_of_neg (by simp [taskCountSample, h]), ih]

theorem emitReplicaCount_of_global (s : Service) (h : s.Spec.Mode.Replicated = none) :
    emitReplicaCount s = ⟨[], none⟩ := by
  simp [emitReplicaCount, h, Outcome.done]

theorem emitReplicaCount_of_replicas (s : Service) (n : Nat)
    (h : s.Spec.Mode.Replicated = some ⟨some n⟩) :
    emitReplicaCount s = ⟨[replicaSample s.Spec.Annotations.Name (float64 n)], none⟩ := by
  simp [emitReplicaCount, h, send, MustNewConstMetric, replicaCount, replicaSample]

theorem emitReplicaCount_of_nil (s : Service) (h : s.Spec.Mode.Replicated = some ⟨none⟩) :
    emitReplicaCount s = ⟨[], some nilDereference⟩ := by
  simp [emitReplicaCount, h, Outcome.panic]

theorem emitImageVersion_of_spec (s : Service) (c : ContainerSpec)
    (h : s.Spec.TaskTemplate.ContainerSpec = some c) :
    emitImageVersion s = ⟨[infoSample s.Spec.Annotations.Name c.Image], none⟩ := by
  simp [emitImageVersion, h, send, MustNewConstMetric, imageVersion, infoSample]

theorem emitImageVersion_of_nil (s : Service) (h : s.Spec.TaskTemplate.ContainerSpec = none) :
    emitImageVersion s = ⟨[], some nilDereference⟩ := by
  simp [emitImageVersion, h, Outcome.panic]

/-- The samples one iteration sends once line 98 is passed, and its panic status. -/
theorem collectService_eq (ρ : RangeOrder) (s : Service) (tasks : List Task)
    (hr : (emitReplicaCount s).panicked = none) :
    collectService ρ s tasks =
      match s.Spec.TaskTemplate.ContainerSpec with
      | none => ⟨(emitReplicaCount s).sent ++ (emitTaskCount ρ s tasks).sent, some nilDereference⟩
      | some c => ⟨(emitReplicaCount s).sent ++ ((emitTaskCount ρ s tasks).sent ++
          [infoSample s.Spec.Annotations.Name c.Image,
           changeTimeSample s.Spec.Annotations.Name
             (scanTasks s.ID tasks).lastTaskStatusChange.Unix]), none⟩ := by
  cases hc : s.Spec.TaskTemplate.ContainerSpec with
  | none =>
    simp [collectService, Outcome.andThen, hr, emitTaskCount_eq, emitImageVersion_of_nil s hc]
  | some c =>
    simp [collectService, Outcome.andThen, hr, emitTaskCount_eq, emitImageVersion_of_spec s c hc,
      emitLastChangeTime_eq]

theorem collectService_of_nil_replicas (ρ : RangeOrder) (s : Service) (tasks : List Task)
    (hr : ¬ (emitReplicaCount s).panicked = none) :
    collectService ρ s tasks = emitReplicaCount s := by
  unfold collectService Outcome.andThen
  cases h : (emitReplicaCount s).panicked with
  | none => exact absurd h hr
  | some e => rfl

theorem collectService_congr (ρ : RangeOrder) (s : Service) (tasks tasks' : List Task)
    (h : scanTasks s.ID tasks = scanTasks s.ID tasks') :
    collectService ρ s tasks = collectService ρ s tasks' := by
  unfold collectService emitTaskCount emitLastChangeTime
  rw [h]

theorem collectService_panicked (ρ : RangeOrder) (s : Service) (tasks tasks' : List Task) :
    (collectService ρ s tasks).panicked = (collectService ρ s tasks').panicked := by
  by_cases hr : (emitReplicaCount s).panicked = none
  · rw [collectService_eq ρ s tasks hr, collectService_eq ρ s tasks' hr]
    cases s.Spec.TaskTemplate.ContainerSpec <;> rfl
  · rw [collectService_of_nil_replicas ρ s tasks hr, collectService_of_nil_replicas ρ s tasks' hr]

/-! ## Lemmas: the service loop -/

theorem collectServices_congr (ρ : Nat → RangeOrder) (services : List Service)
    (tasks tasks' : List Task)
    (h : ∀ s ∈ services, scanTasks s.ID tasks = scanTasks s.ID tasks') :
    collectServices ρ services tasks = collectServices ρ services tasks' := by
  induction services generalizing ρ with
  | nil => rfl
  | cons s rest ih =>
    unfold collectServices
    rw [collectService_congr (ρ 0) s tasks tasks' (h s (List.mem_cons_self _ _)),
      ih _ (fun s' hs' => h s' (List.mem_cons_of_mem _ hs'))]

theorem collectServices_panicked (ρ : Nat → RangeOrder) (services : List Service)
    (tasks tasks' : List Task) :
    (collectServices ρ services tasks).panicked = (collectServices ρ services tasks').panicked := by
  induction services generalizing ρ with
  | nil => rfl
  | cons s rest ih =>
    unfold collectServices Outcome.andThen
    have h1 := collectService_panicked (ρ 0) s tasks tasks'
    cases h : (collectService (ρ 0) s tasks).panicked with
    | none =>
      rw [h] at h1
      rw [← h1]
      exact ih _
    | some e =>
      rw [h] at h1
      rw [← h1]
      simpa [h] using h1

/-! ## Lemmas: the latest timestamp -/

theorem After_eq_true_iff (t u : Time) :
    t.After u = true ↔ (u.sec < t.sec ∨ (t.sec = u.sec ∧ u.nsec < t.nsec)) := by
  simp [Time.After]

theorem After_eq_false_iff (t u : Time) :
    t.After u = false ↔ (t.sec < u.sec ∨ (t.sec = u.sec ∧ t.nsec ≤ u.nsec)) := by
  rw [← Bool.not_eq_true, After_eq_true_iff]
  omega

theorem Unix_le_of_not_After (t u : Time) (h : t.After u = false) : t.Unix ≤ u.Unix := by
  rw [After_eq_false_iff] at h
  unfold Time.Unix
  omega

theorem not_After_trans (a b c : Time) (h1 : a.After b = false) (h2 : b.After c = false) :
    a.After c = false := by
  rw [After_eq_false_iff] at *
  omega

theorem not_After_self (a : Time) : a.After a = false := by
  rw [After_eq_false_iff]
  omega

theorem not_After_of_After (a b : Time) (h : a.After b = true) : b.After a = false := by
  rw [After_eq_true_iff] at h
  rw [After_eq_false_iff]
  omega

theorem eq_of_not_After (a b : Time) (h1 : a.After b = false) (h2 : b.After a = false) :
    a = b := by
  rw [After_eq_false_iff] at h1 h2
  obtain ⟨s1, n1⟩ := a
  obtain ⟨s2, n2⟩ := b
  simp only [Time.mk.injEq] at *
  constructor <;> omega

theorem foldl_scanStep_last_ge_init (sid : String) (tasks : List Task) (st : ScanState) :
    st.lastTaskStatusChange.After
      (tasks.foldl (scanStep sid) st).lastTaskStatusChange = false := by
  induction tasks generalizing st with
  | nil => exact not_After_self _
  | cons t ts ih =>
    rw [List.foldl_cons]
    refine not_After_trans _ _ _ ?_ (ih _)
    by_cases ho : t.ServiceID = sid
    · rw [scanStep_owned sid st t ho]
      by_cases ha : t.Status.Timestamp.After st.lastTaskStatusChange = true
      · simp only [ha, if_true]
        exact not_After_of_After _ _ ha
      · simp only [ha, if_false]
        exact not_After_self _
    · rw [scanStep_other sid st t ho]
      exact not_After_self _

theorem foldl_scanStep_last_ge_owned (sid : String) (tasks : List Task) (st : ScanState)
    (t : Task) (ht : t ∈ tasks) (ho : t.ServiceID = sid) :
    t.Status.Timestamp.After
      (tasks.foldl (scanStep sid) st).lastTaskStatusChange = false := by
  induction tasks generalizing st with
  | nil => simp at ht
  | cons t' ts ih =>
    rw [List.foldl_cons]
    rcases List.mem_cons.mp ht with h | h
    · subst h
      refine not_After_trans _ _ _ ?_ (foldl_scanStep_last_ge_init sid ts _)
      rw [scanStep_owned sid st t ho]
      by_cases ha : t.Status.Timestamp.After st.lastTaskStatusChange = true
      · simp only [ha, if_true]
        exact not_After_self _
      · simp only [ha, if_false]
        simpa using ha
    · exact ih _ h

theorem foldl_scanStep_last_mem (sid : String) (tasks : List Task) (st : ScanState) :
    (tasks.foldl (scanStep sid) st).lastTaskStatusChange = st.lastTaskStatusChange ∨
      ∃ t ∈ tasks, t.ServiceID = sid ∧
        (tasks.foldl (scanStep sid) st).lastTaskStatusChange = t.Status.Timestamp := by
  induction tasks generalizing st with
  | nil => exact Or.inl rfl
  | cons t ts ih =>
    rw [List.foldl_cons]
    have hstep : (scanStep sid st t).lastTaskStatusChange = st.lastTaskStatusChange ∨
        (t.ServiceID = sid ∧ (scanStep sid st t).lastTaskStatusChange = t.Status.Timestamp) := by
      by_cases ho : t.ServiceID = sid
      · rw [scanStep_owned sid st t ho]
        by_cases ha : t.Status.Timestamp.After st.lastTaskStatusChange = true
        · exact Or.inr ⟨ho, by simp only [ha, if_true]⟩
        · exact Or.inl (by simp [ha])
      · rw [scanStep_other sid st t ho]
        exact Or.inl rfl
    rcases ih (scanStep sid st t) with h | ⟨t', ht', ho', h⟩
    · rcases hstep with h1 | ⟨ho, h1⟩
      · exact Or.inl (h.trans h1)
      · exact Or.inr ⟨t, List.mem_cons_self _ _, ho, h.trans h1⟩
    · exact Or.inr ⟨t', List.mem_cons_of_mem _ ht', ho', h⟩

theorem changeTimeValue_ge_zero (s : Service) (tasks : List Task) :
    Time.zero.Unix ≤ changeTimeValue s tasks :=
  Unix_le_of_not_After _ _ (foldl_scanStep_last_ge_init s.ID tasks ScanState.init)

theorem changeTimeValue_ge_owned (s : Service) (tasks : List Task) (t : Task)
    (ht : t ∈ tasks) (ho : t.ServiceID = s.ID) :
    t.Status.Timestamp.Unix ≤ changeTimeValue s tasks :=
  Unix_le_of_not_After _ _ (foldl_scanStep_last_ge_owned s.ID tasks ScanState.init t ht ho)

theorem changeTimeValue_mem (s : Service) (tasks : List Task) :
    changeTimeValue s tasks = Time.zero.Unix ∨
      ∃ t ∈ tasks, t.ServiceID = s.ID ∧ changeTimeValue s tasks = t.Status.Timestamp.Unix := by
  unfold changeTimeValue scanTasks
  rcases foldl_scanStep_last_mem s.ID tasks ScanState.init with h | ⟨t, ht, ho, h⟩
  · exact Or.inl (by rw [h]; rfl)
  · exact Or.inr ⟨t, ht, ho, by rw [h]⟩

theorem emitLastChangeTime_value (s : Service) (tasks : List Task) :
    emitLastChangeTime s tasks =
      ⟨[changeTimeSample s.Spec.Annotations.Name (changeTimeValue s tasks)], none⟩ :=
  emitLastChangeTime_eq s tasks

/-! ## Lemmas: samples of one descriptor -/

theorem andThen_panicked_none (a b : Outcome) :
    (a.andThen b).panicked = none ↔ a.panicked = none ∧ b.panicked = none := by
  unfold Outcome.andThen
  cases h : a.panicked with
  | none => simp
  | some e => simp [h]

theorem andThen_sent_of_none (a b : Outcome) (h : a.panicked = none) :
    (a.andThen b).sent = a.sent ++ b.sent := by
  unfold Outcome.andThen
  rw [h]

theorem samplesOf_emitReplicaCount (d : Desc) (h : ¬ replicaCount = d) (s : Service) :
    samplesOf d (emitReplicaCount s).sent = [] := by
  cases hm : s.Spec.Mode.Replicated with
  | none => rw [emitReplicaCount_of_global s hm]; rfl
  | some r =>
    obtain ⟨o⟩ := r
    cases o with
    | none => rw [emitReplicaCount_of_nil s hm]; rfl
    | some n =>
      rw [emitReplicaCount_of_replicas s n hm]
      simp [samplesOf, replicaSample, h]

theorem samplesOf_emitTaskCount (d : Desc) (h : ¬ taskCount = d) (ρ : RangeOrder)
    (s : Service) (tasks : List Task) :
    samplesOf d (emitTaskCount ρ s tasks).sent = [] := by
  rw [emitTaskCount_eq]
  exact samplesOf_taskCountSamples d h _ _

theorem collectService_info (ρ : RangeOrder) (s : Service) (tasks : List Task)
    (h : (collectService ρ s tasks).panicked = none) :
    (samplesOf imageVersion (collectService ρ s tasks).sent).map some =
      [s.Spec.TaskTemplate.ContainerSpec.map
        (fun c => infoSample s.Spec.Annotations.Name c.Image)] := by
  have hr : (emitReplicaCount s).panicked = none := by
    unfold collectService at h
    exact ((andThen_panicked_none _ _).mp h).1
  rw [collectService_eq ρ s tasks hr] at h ⊢
  cases hc : s.Spec.TaskTemplate.ContainerSpec with
  | none => simp [hc] at h
  | some c =>
    simp only [samplesOf_append, samplesOf_emitReplicaCount imageVersion (by decide),
      samplesOf_emitTaskCount imageVersion (by decide), List.nil_append, Option.map_some']
    simp [samplesOf, infoSample, changeTimeSample, imageVersion, lastChangeTime]

theorem andThen_of_panicked (a b : Outcome) (h : ¬ a.panicked = none) : a.andThen b = a := by
  unfold Outcome.andThen
  cases hp : a.panicked with
  | none => exact absurd hp h
  | some e => rfl

theorem collectService_info_of_panic (ρ : RangeOrder) (s : Service) (tasks : List Task)
    (h : ¬ (collectService ρ s tasks).panicked = none) :
    samplesOf imageVersion (collectService ρ s tasks).sent = [] := by
  by_cases hr : (emitReplicaCount s).panicked = none
  · rw [collectService_eq ρ s tasks hr] at h ⊢
    cases hc : s.Spec.TaskTemplate.ContainerSpec with
    | none =>
      simp only [samplesOf_append, samplesOf_emitReplicaCount imageVersion (by decide),
        samplesOf_emitTaskCount imageVersion (by decide), List.append_nil]
    | some c => simp [hc] at h
  · rw [collectService_of_nil_replicas ρ s tasks hr]
    exact samplesOf_emitReplicaCount imageVersion (by decide) s

theorem collectServices_info_of_completed (ρ : Nat → RangeOrder) (services : List Service)
    (tasks : List Task) (h : (collectServices ρ services tasks).panicked = none) :
    (samplesOf imageVersion (collectServices ρ services tasks).sent).map some =
      services.map (fun s => s.Spec.TaskTemplate.ContainerSpec.map
        (fun c => infoSample s.Spec.Annotations.Name c.Image)) := by
  induction services generalizing ρ with
  | nil => rfl
  | cons s rest ih =>
    unfold collectServices at h ⊢
    obtain ⟨h1, h2⟩ := (andThen_panicked_none _ _).mp h
    rw [andThen_sent_of_none _ _ h1, samplesOf_append, List.map_append,
      collectService_info (ρ 0) s tasks h1, ih _ h2]
    rfl

theorem collectServices_info_initial (ρ : Nat → RangeOrder) (services : List Service)
    (tasks : List Task) :
    ∃ k, k ≤ services.length ∧
      (samplesOf imageVersion (collectServices ρ services tasks).sent).map some =
        (services.take k).map (fun s => s.Spec.TaskTemplate.ContainerSpec.map
          (fun c => infoSample s.Spec.Annotations.Name c.Image)) := by
  induction services generalizing ρ with
  | nil => exact ⟨0, Nat.le_refl _, rfl⟩
  | cons s rest ih =>
    unfold collectServices
    by_cases h1 : (collectService (ρ 0) s tasks).panicked = none
    · obtain ⟨k, hk, hpre⟩ := ih (fun i => ρ (i + 1))
      refine ⟨k + 1, by simpa using hk, ?_⟩
      rw [andThen_sent_of_none _ _ h1, samplesOf_append, List.map_append,
        collectService_info (ρ 0) s tasks h1, hpre]
      rfl
    · refine ⟨0, Nat.zero_le _, ?_⟩
      rw [andThen_of_panicked _ _ h1, collectService_info_of_panic (ρ 0) s tasks h1]
      rfl

theorem samplesOf_taskCountSamples_self (name : String) (l : List (String × Nat)) :
    samplesOf taskCount (l.map (fun e => taskCountSample name e.1 e.2)) =
      l.map (fun e => taskCountSample name e.1 e.2) := by
  unfold samplesOf
  rw [List.filter_eq_self]
  intro m hm
  obtain ⟨e, _, rfl⟩ := List.mem_map.mp hm
  simp [taskCountSample]

/-- Once line 98 is passed, the `swarm_service_tasks` samples of an iteration are
those of lines 112-120. -/
theorem collectService_taskCount (ρ : RangeOrder) (s : Service) (tasks : List Task)
    (hr : (emitReplicaCount s).panicked = none) :
    samplesOf taskCount (collectService ρ s tasks).sent = (emitTaskCount ρ s tasks).sent := by
  rw [collectService_eq ρ s tasks hr]
  cases hc : s.Spec.TaskTemplate.ContainerSpec with
  | none =>
    simp only [samplesOf_append, samplesOf_emitReplicaCount taskCount (by decide),
      List.nil_append]
    rw [emitTaskCount_eq]
    exact samplesOf_taskCountSamples_self _ _
  | some c =>
    simp only [samplesOf_append, samplesOf_emitReplicaCount taskCount (by decide),
      List.nil_append]
    rw [emitTaskCount_eq]
    simp only [samplesOf_taskCountSamples_self]
    simp [samplesOf, infoSample, changeTimeSample, imageVersion, lastChangeTime, taskCount]

/-- An iteration that completes sends exactly one `swarm_service_change_time`
sample, the one of lines 131-136. -/
theorem collectService_changeTime (ρ : RangeOrder) (s : Service) (tasks : List Task)
    (h : (collectService ρ s tasks).panicked = none) :
    samplesOf lastChangeTime (collectService ρ s tasks).sent =
      [changeTimeSample s.Spec.Annotations.Name (changeTimeValue s tasks)] := by
  have hr : (emitReplicaCount s).panicked = none := by
    unfold collectService at h
    exact ((andThen_panicked_none _ _).mp h).1
  rw [collectService_eq ρ s tasks hr] at h ⊢
  cases hc : s.Spec.TaskTemplate.ContainerSpec with
  | none => simp [hc] at h
  | some c =>
    simp only [samplesOf_append, samplesOf_emitReplicaCount lastChangeTime (by decide),
      samplesOf_emitTaskCount lastChangeTime (by decide), List.nil_append]
    simp [samplesOf, infoSample, changeTimeSample, imageVersion, lastChangeTime, changeTimeValue]

/-! ## Lemmas: the sequence of blocks -/

theorem RangeOrder.eq_of_iter (r r' : RangeOrder) (h : ∀ m, r.iter m = r'.iter m) : r = r' := by
  obtain ⟨f, hf⟩ := r
  obtain ⟨g, hg⟩ := r'
  have hfg : f = g := funext h
  subst hfg
  rfl

theorem emitReplicaCount_sent (s : Service) : (emitReplicaCount s).sent = replicaBlock s := by
  unfold replicaBlock
  cases hm : s.Spec.Mode.Replicated with
  | none => rw [emitReplicaCount_of_global s hm]
  | some r =>
    obtain ⟨o⟩ := r
    cases o with
    | none => rw [emitReplicaCount_of_nil s hm]
    | some n => rw [emitReplicaCount_of_replicas s n hm]

theorem collectService_sent_of_completed (ρ : RangeOrder) (s : Service) (tasks : List Task)
    (h : (collectService ρ s tasks).panicked = none) :
    (collectService ρ s tasks).sent = serviceBlock ρ s tasks := by
  have hr : (emitReplicaCount s).panicked = none := by
    unfold collectService at h
    exact ((andThen_panicked_none _ _).mp h).1
  rw [collectService_eq ρ s tasks hr] at h ⊢
  unfold serviceBlock infoBlock
  cases hc : s.Spec.TaskTemplate.ContainerSpec with
  | none => simp [hc] at h
  | some c =>
    simp only [emitReplicaCount_sent, emitTaskCount_eq, taskBlock, changeTimeValue]
    rfl

theorem collectServices_sent_of_completed (ρ : Nat → RangeOrder) (services : List Service)
    (tasks : List Task) (h : (collectServices ρ services tasks).panicked = none) :
    (collectServices ρ services tasks).sent = serviceBlocks ρ services tasks := by
  induction services generalizing ρ with
  | nil => rfl
  | cons s rest ih =>
    unfold collectServices at h ⊢
    obtain ⟨h1, h2⟩ := (andThen_panicked_none _ _).mp h
    rw [andThen_sent_of_none _ _ h1, collectService_sent_of_completed (ρ 0) s tasks h1, ih _ h2]
    rfl

theorem taskBlock_perm (r r' : RangeOrder) (s : Service) (tasks : List Task) :
    List.Perm (taskBlock r s tasks) (taskBlock r' s tasks) := by
  unfold taskBlock
  exact List.Perm.map _ ((r.perm _).trans (r'.perm _).symm)

theorem serviceBlocks_perm (ρ ρ' : Nat → RangeOrder) (services : List Service)
    (tasks : List Task) :
    List.Perm (serviceBlocks ρ services tasks) (serviceBlocks ρ' services tasks) := by
  induction services generalizing ρ ρ' with
  | nil => exact List.Perm.refl _
  | cons s rest ih =>
    unfold serviceBlocks serviceBlock
    exact List.Perm.append
      (List.Perm.append_left _ (List.Perm.append_right _ (taskBlock_perm _ _ s tasks)))
      (ih _ _)

theorem collectService_panicked_order (ρ ρ' : RangeOrder) (s : Service) (tasks : List Task) :
    (collectService ρ s tasks).panicked = (collectService ρ' s tasks).panicked := by
  by_cases hr : (emitReplicaCount s).panicked = none
  · rw [collectService_eq ρ s tasks hr, collectService_eq ρ' s tasks hr]
    cases s.Spec.TaskTemplate.ContainerSpec <;> rfl
  · rw [collectService_of_nil_replicas ρ s tasks hr, collectService_of_nil_replicas ρ' s tasks hr]

theorem collectServices_panicked_order (ρ ρ' : Nat → RangeOrder) (services : List Service)
    (tasks : List Task) :
    (collectServices ρ services tasks).panicked = (collectServices ρ' services tasks).panicked := by
  induction services generalizing ρ ρ' with
  | nil => rfl
  | cons s rest ih =>
    unfold collectServices
    have h1 := collectService_panicked_order (ρ 0) (ρ' 0) s tasks
    by_cases hp : (collectService (ρ 0) s tasks).panicked = none
    · have hp' : (collectService (ρ' 0) s tasks).panicked = none := by rw [← h1]; exact hp
      unfold Outcome.andThen
      rw [hp, hp']
      exact ih _ _
    · have hp' : ¬ (collectService (ρ' 0) s tasks).panicked = none := by rw [← h1]; exact hp
      rw [andThen_of_panicked _ _ hp, andThen_of_panicked _ _ hp']
      exact h1

/-! ## Lemmas: grouping by service -/

theorem specGroupOf_add (groups : List (String × List Task)) (t : Task) (sid : String) :
    specGroupOf (specAddToGroup groups t) sid =
      if t.ServiceID = sid then specGroupOf groups sid ++ [t] else specGroupOf groups sid := by
  induction groups with
  | nil =>
    by_cases h : t.ServiceID = sid
    · simp [specAddToGroup, specGroupOf, h]
    · simp [specAddToGroup, specGroupOf, h]
  | cons e rest ih =>
    obtain ⟨k, g⟩ := e
    by_cases hk : k = t.ServiceID
    · subst hk
      by_cases h : t.ServiceID = sid
      · simp [specAddToGroup, specGroupOf, h]
      · simp [specAddToGroup, specGroupOf, h]
    · by_cases hks : k = sid
      · subst hks
        have h : ¬ t.ServiceID = k := fun e => hk e.symm
        simp [specAddToGroup, specGroupOf, hk, h]
      · simp only [specAddToGroup, hk, if_false, specGroupOf, hks, ih]

theorem specGroupOf_foldl (tasks : List Task) (groups : List (String × List Task))
    (sid : String) :
    specGroupOf (tasks.foldl specAddToGroup groups) sid =
      specGroupOf groups sid ++ tasks.filter (fun t => decide (t.ServiceID = sid)) := by
  induction tasks generalizing groups with
  | nil => simp
  | cons t ts ih =>
    rw [List.foldl_cons, ih, specGroupOf_add]
    by_cases h : t.ServiceID = sid
    · simp [h]
    · simp [h]

theorem specGroupOf_dropOrphans (services : List Service) (s : Service) (hs : s ∈ services)
    (groups : List (String × List Task)) :
    specGroupOf (specDropOrphanGroups services groups) s.ID = specGroupOf groups s.ID := by
  induction groups with
  | nil => rfl
  | cons e rest ih =>
    obtain ⟨k, g⟩ := e
    unfold specDropOrphanGroups at ih ⊢
    by_cases hp : (services.any (fun s' => decide (s'.ID = k))) = true
    · rw [List.filter_cons_of_pos (by simpa using hp)]
      simp only [specGroupOf, ih]
    · rw [List.filter_cons_of_neg (by simpa using hp), ih]
      have hk : ¬ k = s.ID := by
        intro hk
        apply hp
        simp only [List.any_eq_true, decide_eq_true_eq]
        exact ⟨s, hs, hk.symm⟩
      simp [specGroupOf, hk]

theorem specLater_eq_After (a b : Time) : specLater a b = a.After b := by
  rw [Bool.eq_iff_iff, After_eq_true_iff]
  simp only [specLater, decide_eq_true_eq, Prod.Lex.lt_iff]
  omega

theorem foldl_specFoldStep_counts (group : List Task) (snap : Snapshot) (k : String) :
    (group.foldl specFoldStep snap).TaskStateCounts k =
      if group.countP (fun t => decide (t.Status.State = k)) = 0 then snap.TaskStateCounts k
      else some ((snap.TaskStateCounts k).getD 0 +
        group.countP (fun t => decide (t.Status.State = k))) := by
  induction group generalizing snap with
  | nil => simp
  | cons t ts ih =>
    rw [List.foldl_cons, ih]
    by_cases hs : t.Status.State = k
    · have hc : (t :: ts).countP (fun t => decide (t.Status.State = k)) =
          ts.countP (fun t => decide (t.Status.State = k)) + 1 := by
        simp [List.countP_cons, hs]
      have hstep : (specFoldStep snap t).TaskStateCounts k =
          some ((snap.TaskStateCounts k).getD 0 + 1) := by
        simp [specFoldStep, hs]
      rw [hc, hstep]
      by_cases h0 : ts.countP (fun t => decide (t.Status.State = k)) = 0
      · simp [h0]
      · simp only [h0, if_false, Option.getD_some, Nat.succ_ne_zero, Option.some.injEq]
        omega
    · have hc : (t :: ts).countP (fun t => decide (t.Status.State = k)) =
          ts.countP (fun t => decide (t.Status.State = k)) := by
        simp [List.countP_cons, hs]
      have hs' : ¬ k = t.Status.State := fun e => hs e.symm
      have hstep : (specFoldStep snap t).TaskStateCounts k = snap.TaskStateCounts k := by
        simp [specFoldStep, hs']
      rw [hc, hstep]

theorem countP_state_filter (sid k : String) (tasks : List Task) :
    (tasks.filter (fun t => decide (t.ServiceID = sid))).countP
        (fun t => decide (t.Status.State = k)) = stateCount sid k tasks := by
  induction tasks with
  | nil => rfl
  | cons t ts ih =>
    unfold stateCount at ih ⊢
    by_cases h : t.ServiceID = sid
    · rw [List.filter_cons_of_pos (by simpa using h), List.countP_cons, List.countP_cons, ih]
      simp [h]
    · rw [List.filter_cons_of_neg (by simpa using h), List.countP_cons, ih]
      simp [h]

theorem foldl_specFoldStep_last (sid : String) (tasks : List Task) (snap : Snapshot)
    (st : ScanState) (h : st.lastTaskStatusChange = snap.LastChangeTime) :
    ((tasks.filter (fun t => decide (t.ServiceID = sid))).foldl specFoldStep
        snap).LastChangeTime =
      (tasks.foldl (scanStep sid) st).lastTaskStatusChange := by
  induction tasks generalizing snap st with
  | nil => exact h.symm
  | cons t ts ih =>
    by_cases ho : t.ServiceID = sid
    · rw [List.filter_cons_of_pos (by simpa using ho), List.foldl_cons, List.foldl_cons]
      apply ih
      rw [scanStep_owned sid st t ho]
      simp only [specFoldStep, specLater_eq_After, h]
    · rw [List.filter_cons_of_neg (by simpa using ho), List.foldl_cons,
        scanStep_other sid st t ho]
      exact ih snap st h

theorem specSnapshot_eq (services : List Service) (tasks : List Task) (s : Service)
    (hs : s ∈ services) :
    specSnapshot services tasks s =
      (tasks.filter (fun t => decide (t.ServiceID = s.ID))).foldl specFoldStep specSeed := by
  unfold specSnapshot specFoldGroup specGroupByServiceID
  rw [specGroupOf_dropOrphans services s hs, specGroupOf_foldl]
  simp only [specGroupOf, List.nil_append]

theorem specSnapshot_counts (services : List Service) (tasks : List Task) (s : Service)
    (hs : s ∈ services) :
    (specSnapshot services tasks s).TaskStateCounts = mapGet (scanTasks s.ID tasks).taskStates := by
  funext k
  rw [specSnapshot_eq services tasks s hs, foldl_specFoldStep_counts, countP_state_filter]
  unfold scanTasks
  rw [foldl_scanStep_mapGet]
  by_cases hk : k = "running"
  · subst hk
    simp [specSeed, ScanState.init, mapGet]
  · have hk' : ¬ "running" = k := fun e => hk e.symm
    simp [specSeed, ScanState.init, mapGet, hk, hk']

theorem specSnapshot_last (services : List Service) (tasks : List Task) (s : Service)
    (hs : s ∈ services) :
    (specSnapshot services tasks s).LastChangeTime =
      if (Time.ofUnix 0).After (scanTasks s.ID tasks).lastTaskStatusChange = true then
        Time.ofUnix 0
      else (scanTasks s.ID tasks).lastTaskStatusChange := by
  rw [specSnapshot_eq services tasks s hs,
    foldl_specFoldStep_last s.ID tasks specSeed ⟨[("running", 0)], Time.ofUnix 0⟩ rfl]
  unfold scanTasks
  have hSi := foldl_scanStep_last_ge_init s.ID tasks ⟨[("running", 0)], Time.ofUnix 0⟩
  have hSo := foldl_scanStep_last_ge_owned s.ID tasks ⟨[("running", 0)], Time.ofUnix 0⟩
  have hSm := foldl_scanStep_last_mem s.ID tasks ⟨[("running", 0)], Time.ofUnix 0⟩
  have hCi := foldl_scanStep_last_ge_init s.ID tasks ScanState.init
  have hCo := foldl_scanStep_last_ge_owned s.ID tasks ScanState.init
  have hCm := foldl_scanStep_last_mem s.ID tasks ScanState.init
  simp only at hSi hSm
  by_cases he : (Time.ofUnix 0).After
      (tasks.foldl (scanStep s.ID) ScanState.init).lastTaskStatusChange = true
  · rw [if_pos he]
    rcases hSm with h | ⟨t, ht, ho, h⟩
    · exact h
    · have h1 := hCo t ht ho
      rw [h] at hSi
      rw [After_eq_true_iff] at he
      rw [After_eq_false_iff] at h1 hSi
      exfalso
      omega
  · rw [if_neg he]
    have he' : (Time.ofUnix 0).After
        (tasks.foldl (scanStep s.ID) ScanState.init).lastTaskStatusChange = false := by
      simpa using he
    apply eq_of_not_After
    · rcases hSm with h | ⟨t, ht, ho, h⟩
      · rw [h]
        exact he'
      · rw [h]
        exact hCo t ht ho
    · rcases hCm with h | ⟨t, ht, ho, h⟩
      · rw [h]
        exact not_After_trans _ (Time.ofUnix 0) _ (by decide) hSi
      · rw [h]
        exact hSo t ht ho

/-! ## Lemmas: descriptors and labels -/

theorem mem_andThen_sent (a b : Outcome) (m : Metric) (h : m ∈ (a.andThen b).sent) :
    m ∈ a.sent ∨ m ∈ b.sent := by
  by_cases hp : a.panicked = none
  · rw [andThen_sent_of_none _ _ hp] at h
    exact List.mem_append.mp h
  · rw [andThen_of_panicked _ _ hp] at h
    exact Or.inl h

theorem mem_replicaBlock (s : Service) (m : Metric) (h : m ∈ replicaBlock s) :
    ∃ n : Nat, m = replicaSample s.Spec.Annotations.Name n := by
  unfold replicaBlock at h
  cases hm : s.Spec.Mode.Replicated with
  | none => simp [hm] at h
  | some r =>
    obtain ⟨o⟩ := r
    cases o with
    | none => simp [hm] at h
    | some n =>
      simp only [hm, List.mem_singleton] at h
      exact ⟨float64 n, h⟩

theorem mem_emitImageVersion (s : Service) (m : Metric) (h : m ∈ (emitImageVersion s).sent) :
    ∃ image : String, m = infoSample s.Spec.Annotations.Name image := by
  cases hc : s.Spec.TaskTemplate.ContainerSpec with
  | none =>
    rw [emitImageVersion_of_nil s hc] at h
    simp at h
  | some c =>
    rw [emitImageVersion_of_spec s c hc] at h
    exact ⟨c.Image, List.mem_singleton.mp h⟩

theorem mem_collectService_sent (ρ : RangeOrder) (s : Service) (tasks : List Task)
    (m : Metric) (h : m ∈ (collectService ρ s tasks).sent) : IsSampleOf s m := by
  unfold collectService at h
  rcases mem_andThen_sent _ _ m h with h1 | h1
  · rw [emitReplicaCount_sent] at h1
    exact Or.inl (mem_replicaBlock s m h1)
  · rcases mem_andThen_sent _ _ m h1 with h2 | h2
    · rw [emitTaskCount_eq] at h2
      obtain ⟨e, _, rfl⟩ := List.mem_map.mp h2
      exact Or.inr (Or.inl ⟨e.1, e.2, rfl⟩)
    · rcases mem_andThen_sent _ _ m h2 with h3 | h3
      · exact Or.inr (Or.inr (Or.inl (mem_emitImageVersion s m h3)))
      · rw [emitLastChangeTime_eq] at h3
        exact Or.inr (Or.inr (Or.inr ⟨_, List.mem_singleton.mp h3⟩))

theorem mem_collectServices_sent (ρ : Nat → RangeOrder) (services : List Service)
    (tasks : List Task) (m : Metric) (h : m ∈ (collectServices ρ services tasks).sent) :
    ∃ s ∈ services, IsSampleOf s m := by
  induction services generalizing ρ with
  | nil => simp [collectServices, Outcome.done] at h
  | cons s rest ih =>
    unfold collectServices at h
    rcases mem_andThen_sent _ _ m h with h1 | h1
    · exact ⟨s, List.mem_cons_self _ _, mem_collectService_sent (ρ 0) s tasks m h1⟩
    · obtain ⟨s', hs', hm⟩ := ih _ h1
      exact ⟨s', List.mem_cons_of_mem _ hs', hm⟩

theorem IsSampleOf.well_formed (s : Service) (m : Metric) (h : IsSampleOf s m) :
    m.desc ∈ Describe ∧ m.labelValues.length = m.desc.variableLabels.length := by
  rcases h with ⟨n, rfl⟩ | ⟨state, count, rfl⟩ | ⟨image, rfl⟩ | ⟨seconds, rfl⟩
  · exact ⟨by simp [Describe, replicaSample], rfl⟩
  · exact ⟨by simp [Describe, taskCountSample], rfl⟩
  · exact ⟨by simp [Describe, infoSample], rfl⟩
  · exact ⟨by simp [Describe, changeTimeSample], rfl⟩

theorem collectService_panic_message (ρ : RangeOrder) (s : Service) (tasks : List Task) :
    (collectService ρ s tasks).panicked = none ∨
      (collectService ρ s tasks).panicked = some nilDereference := by
  by_cases hr : (emitReplicaCount s).panicked = none
  · rw [collectService_eq ρ s tasks hr]
    cases s.Spec.TaskTemplate.ContainerSpec with
    | none => exact Or.inr rfl
    | some c => exact Or.inl rfl
  · rw [collectService_of_nil_replicas ρ s tasks hr]
    cases hm : s.Spec.Mode.Replicated with
    | none => exact absurd (by rw [emitReplicaCount_of_global s hm]) hr
    | some r =>
      obtain ⟨o⟩ := r
      cases o with
      | none => rw [emitReplicaCount_of_nil s hm]; exact Or.inr rfl
      | some n => exact absurd (by rw [emitReplicaCount_of_replicas s n hm]) hr

theorem collectServices_panic_message (ρ : Nat → RangeOrder) (services : List Service)
    (tasks : List Task) :
    (collectServices ρ services tasks).panicked = none ∨
      (collectServices ρ services tasks).panicked = some nilDereference := by
  induction services generalizing ρ with
  | nil => exact Or.inl rfl
  | cons s rest ih =>
    unfold collectServices
    by_cases hp : (collectService (ρ 0) s tasks).panicked = none
    · unfold Outcome.andThen
      rw [hp]
      exact ih _
    · rw [andThen_of_panicked _ _ hp]
      exact collectService_panic_message (ρ 0) s tasks

/-! ## Lemmas: the order of the tasks -/

theorem stateCount_perm (sid k : String) (tasks tasks' : List Task) (h : tasks.Perm tasks') :
    stateCount sid k tasks = stateCount sid k tasks' := by
  unfold stateCount
  exact h.countP_eq _

theorem scanTasks_mem_perm (sid : String) (tasks tasks' : List Task) (h : tasks.Perm tasks')
    (e : String × Nat) :
    e ∈ (scanTasks sid tasks).taskStates ↔ e ∈ (scanTasks sid tasks').taskStates := by
  obtain ⟨k, c⟩ := e
  rw [scanTasks_mem, scanTasks_mem, stateCount_perm sid k tasks tasks' h]
  constructor
  · rintro ⟨h1 | ⟨t, ht, h2⟩, hc⟩
    · exact ⟨Or.inl h1, hc⟩
    · exact ⟨Or.inr ⟨t, h.mem_iff.mp ht, h2⟩, hc⟩
  · rintro ⟨h1 | ⟨t, ht, h2⟩, hc⟩
    · exact ⟨Or.inl h1, hc⟩
    · exact ⟨Or.inr ⟨t, h.mem_iff.mpr ht, h2⟩, hc⟩

theorem scanTasks_taskStates_perm (sid : String) (tasks tasks' : List Task)
    (h : tasks.Perm tasks') :
    List.Perm (scanTasks sid tasks).taskStates (scanTasks sid tasks').taskStates :=
  (List.perm_ext_iff_of_nodup (List.Nodup.of_map _ (scanTasks_nodup_keys sid tasks))
    (List.Nodup.of_map _ (scanTasks_nodup_keys sid tasks'))).mpr
    (fun e => scanTasks_mem_perm sid tasks tasks' h e)

theorem scanTasks_mapGet_perm (sid : String) (tasks tasks' : List Task) (h : tasks.Perm tasks')
    (k : String) :
    mapGet (scanTasks sid tasks).taskStates k = mapGet (scanTasks sid tasks').taskStates k := by
  apply Option.ext
  intro c
  simp only [Option.mem_def]
  rw [← mem_iff_mapGet _ (scanTasks_nodup_keys sid tasks),
    ← mem_iff_mapGet _ (scanTasks_nodup_keys sid tasks')]
  exact scanTasks_mem_perm sid tasks tasks' h (k, c)

theorem scanTasks_last_le_of_subset (sid : String) (tasks tasks' : List Task)
    (h : ∀ t ∈ tasks, t ∈ tasks') :
    (scanTasks sid tasks).lastTaskStatusChange.After
      (scanTasks sid tasks').lastTaskStatusChange = false := by
  unfold scanTasks
  rcases foldl_scanStep_last_mem sid tasks ScanState.init with h1 | ⟨t, ht, ho, h1⟩
  · rw [h1]
    exact foldl_scanStep_last_ge_init sid tasks' ScanState.init
  · rw [h1]
    exact foldl_scanStep_last_ge_owned sid tasks' ScanState.init t (h t ht) ho

theorem scanTasks_last_perm (sid : String) (tasks tasks' : List Task) (h : tasks.Perm tasks') :
    (scanTasks sid tasks).lastTaskStatusChange = (scanTasks sid tasks').lastTaskStatusChange :=
  eq_of_not_After _ _
    (scanTasks_last_le_of_subset sid tasks tasks' (fun _ ht => h.mem_iff.mp ht))
    (scanTasks_last_le_of_subset sid tasks' tasks (fun _ ht => h.mem_iff.mpr ht))

/-! ## Lemmas: counting every task -/

theorem emitTaskCount_values_sum (ρ : RangeOrder) (s : Service) (tasks : List Task) :
    (((emitTaskCount ρ s tasks).sent).map (fun m => m.value)).sum =
      Int.ofNat (ownedCount s.ID tasks) := by
  rw [emitTaskCount_eq]
  simp only
  rw [sum_values_taskCountSample, ((ρ.perm _).map Prod.snd).sum_eq, scanTasks_sum]

theorem collectServices_taskCount_total (ρ : Nat → RangeOrder) (services : List Service)
    (tasks : List Task) (h : (collectServices ρ services tasks).panicked = none) :
    ((samplesOf taskCount (collectServices ρ services tasks).sent).map (fun m => m.value)).sum =
      Int.ofNat ((services.map (fun s => ownedCount s.ID tasks)).sum) := by
  induction services generalizing ρ with
  | nil => rfl
  | cons s rest ih =>
    unfold collectServices at h ⊢
    obtain ⟨h1, h2⟩ := (andThen_panicked_none _ _).mp h
    have hr : (emitReplicaCount s).panicked = none := by
      unfold collectService at h1
      exact ((andThen_panicked_none _ _).mp h1).1
    rw [andThen_sent_of_none _ _ h1, samplesOf_append, List.map_append, List.sum_append,
      collectService_taskCount (ρ 0) s tasks hr, emitTaskCount_values_sum, ih _ h2]
    simp

theorem sum_map_add_countP (f : Task → Nat) (p : Task → Bool) (tasks : List Task) :
    (tasks.map (fun t => f t + if p t = true then 1 else 0)).sum =
      (tasks.map f).sum + tasks.countP p := by
  induction tasks with
  | nil => rfl
  | cons t ts ih =>
    rw [List.map_cons, List.sum_cons, ih, List.map_cons, List.sum_cons, List.countP_cons]
    omega

theorem ownedCount_sum_eq_carriers (services : List Service) (tasks : List Task) :
    (services.map (fun s => ownedCount s.ID tasks)).sum = (tasks.map (carriers services)).sum := by
  induction services with
  | nil =>
    have hc : carriers ([] : List Service) = fun _ => 0 := by
      funext t
      rfl
    rw [hc]
    simp
  | cons s rest ih =>
    rw [List.map_cons, List.sum_cons, ih]
    have hc : carriers (s :: rest) =
        fun t => carriers rest t + if decide (t.ServiceID = s.ID) = true then 1 else 0 := by
      funext t
      unfold carriers
      rw [List.countP_cons]
      by_cases h : s.ID = t.ServiceID
      · simp [h]
      · have h' : ¬ t.ServiceID = s.ID := fun e => h e.symm
        simp [h, h']
    rw [hc, sum_map_add_countP]
    unfold ownedCount
    omega

theorem carriers_of_nodup (services : List Service) (h : (services.map (fun s => s.ID)).Nodup)
    (t : Task) : carriers services t = if isOrphan services t = true then 0 else 1 := by
  induction services with
  | nil => simp [carriers, isOrphan]
  | cons s rest ih =>
    rw [List.map_cons, List.nodup_cons] at h
    have hrest := ih h.2
    by_cases hs : s.ID = t.ServiceID
    · have hzero : carriers rest t = 0 := by
        unfold carriers
        rw [List.countP_eq_zero]
        intro s' hs' heq
        simp only [decide_eq_true_eq] at heq
        exact h.1 (List.mem_map.mpr ⟨s', hs', heq.trans hs.symm⟩)
      unfold carriers at hzero ⊢
      rw [List.countP_cons, hzero]
      simp [isOrphan, hs]
    · unfold carriers at hrest ⊢
      rw [List.countP_cons, hrest]
      simp [isOrphan, hs]

theorem carriers_sum_of_nodup (services : List Service)
    (h : (services.map (fun s => s.ID)).Nodup) (tasks : List Task) :
    (tasks.map (carriers services)).sum = tasks.countP (fun t => !isOrphan services t) := by
  induction tasks with
  | nil => rfl
  | cons t ts ih =>
    rw [List.map_cons, List.sum_cons, ih, List.countP_cons, carriers_of_nodup services h t]
    by_cases ho : isOrphan services t = true
    · simp [ho]
    · simp [ho]
      omega

/-! ## Lemmas: what a completing run sends -/

theorem droppedBits_of_lt (n : Nat) (h : n < 2 ^ 53) : droppedBits n = 0 := by
  have h' : n < 9007199254740992 := by
    have h2 : (2 : Nat) ^ 53 = 9007199254740992 := by decide
    omega
  simp [droppedBits, List.find?, h']

theorem float64_of_le (n : Nat) (h : n ≤ 2 ^ 53) : float64 n = n := by
  rcases Nat.lt_or_ge n (2 ^ 53) with hlt | hge
  · unfold float64
    rw [droppedBits_of_lt n hlt]
    simp [Nat.mod_one]
  · have hn : n = 2 ^ 53 := Nat.le_antisymm h hge
    subst hn
    decide

theorem samplesOf_replicaBlock_self (s : Service) :
    samplesOf replicaCount (replicaBlock s) = replicaBlock s := by
  unfold samplesOf
  rw [List.filter_eq_self]
  intro m hm
  obtain ⟨n, rfl⟩ := mem_replicaBlock s m hm
  simp [replicaSample]

theorem collectService_replicas (ρ : RangeOrder) (s : Service) (tasks : List Task)
    (hr : (emitReplicaCount s).panicked = none) :
    samplesOf replicaCount (collectService ρ s tasks).sent = replicaBlock s := by
  rw [collectService_eq ρ s tasks hr]
  cases hc : s.Spec.TaskTemplate.ContainerSpec with
  | none =>
    simp only [samplesOf_append, samplesOf_emitTaskCount replicaCount (by decide),
      List.append_nil, emitReplicaCount_sent, samplesOf_replicaBlock_self]
  | some c =>
    simp only [samplesOf_append, samplesOf_emitTaskCount replicaCount (by decide),
      List.nil_append, emitReplicaCount_sent, samplesOf_replicaBlock_self]
    simp [samplesOf, infoSample, changeTimeSample, imageVersion, lastChangeTime, replicaCount]

theorem replicated_of_completed (ρ : RangeOrder) (s : Service) (tasks : List Task)
    (h : (collectService ρ s tasks).panicked = none) :
    s.Spec.Mode.Replicated = none ∨ ∃ n : Nat, s.Spec.Mode.Replicated = some ⟨some n⟩ := by
  have hr : (emitReplicaCount s).panicked = none := by
    unfold collectService at h
    exact ((andThen_panicked_none _ _).mp h).1
  cases hm : s.Spec.Mode.Replicated with
  | none => exact Or.inl rfl
  | some r =>
    obtain ⟨o⟩ := r
    cases o with
    | none =>
      rw [emitReplicaCount_of_nil s hm] at hr
      simp at hr
    | some n => exact Or.inr ⟨n, rfl⟩

theorem replicaBlock_of_global (s : Service) (h : s.Spec.Mode.Replicated = none) :
    replicaBlock s = [] := by
  simp [replicaBlock, h]

theorem replicaBlock_of_replicas (s : Service) (n : Nat)
    (h : s.Spec.Mode.Replicated = some ⟨some n⟩) :
    replicaBlock s = [replicaSample s.Spec.Annotations.Name (float64 n)] := by
  simp [replicaBlock, h]

theorem collectServices_iterations_completed (ρ : Nat → RangeOrder) (services : List Service)
    (tasks : List Task) (h : (collectServices ρ services tasks).panicked = none)
    (s : Service) (hs : s ∈ services) (r : RangeOrder) :
    (collectService r s tasks).panicked = none := by
  induction services generalizing ρ with
  | nil => simp at hs
  | cons s' rest ih =>
    unfold collectServices at h
    obtain ⟨h1, h2⟩ := (andThen_panicked_none _ _).mp h
    rcases List.mem_cons.mp hs with he | he
    · subst he
      rw [collectService_panicked_order r (ρ 0) s tasks]
      exact h1
    · exact ih _ h2 he

theorem collectServices_replicas_of_completed (ρ : Nat → RangeOrder) (services : List Service)
    (tasks : List Task) (h : (collectServices ρ services tasks).panicked = none) :
    samplesOf replicaCount (collectServices ρ services tasks).sent =
      (services.map replicaBlock).flatten := by
  induction services generalizing ρ with
  | nil => rfl
  | cons s rest ih =>
    unfold collectServices at h ⊢
    obtain ⟨h1, h2⟩ := (andThen_panicked_none _ _).mp h
    have hr : (emitReplicaCount s).panicked = none := by
      unfold collectService at h1
      exact ((andThen_panicked_none _ _).mp h1).1
    rw [andThen_sent_of_none _ _ h1, samplesOf_append, collectService_replicas (ρ 0) s tasks hr,
      ih _ h2]
    rfl

theorem collectServices_changeTime_of_completed (ρ : Nat → RangeOrder)
    (services : List Service) (tasks : List Task)
    (h : (collectServices ρ services tasks).panicked = none) :
    samplesOf lastChangeTime (collectServices ρ services tasks).sent =
      services.map (fun s => changeTimeSample s.Spec.Annotations.Name (changeTimeValue s tasks)) := by
  induction services generalizing ρ with
  | nil => rfl
  | cons s rest ih =>
    unfold collectServices at h ⊢
    obtain ⟨h1, h2⟩ := (andThen_panicked_none _ _).mp h
    rw [andThen_sent_of_none _ _ h1, samplesOf_append, collectService_changeTime (ρ 0) s tasks h1,
      ih _ h2]
    rfl

theorem changeTimeValue_of_no_owned (s : Service) (tasks : List Task)
    (h : ownedCount s.ID tasks = 0) : changeTimeValue s tasks = -62135596800 := by
  unfold changeTimeValue
  rw [scanTasks_of_no_owned _ _ h]
  rfl

/-! ## Lemmas: runs and iterations that complete -/

/-- In the iteration of `Collect` for a service `s`, lines 100-120 send, without
panicking and whatever the map iteration order, exactly one `swarm_service_tasks`
sample per state in `{"running"} ∪ {t.State | t ∈ tasks, t.ServiceID = s.ID}`, with the
number of tasks of `s` in that state as value.  These are all the
`swarm_service_tasks` samples of the iteration once line 98 is passed. -/
theorem taskCount_samples_exact (ρ : RangeOrder) (s : Service) (tasks : List Task) :
    (emitTaskCount ρ s tasks).panicked = none ∧
    (emitTaskCount ρ s tasks).sent.Nodup ∧
    (∀ m : Metric, m ∈ (emitTaskCount ρ s tasks).sent ↔
      ∃ state : String,
        (state = "running" ∨ ∃ t ∈ tasks, t.ServiceID = s.ID ∧ t.Status.State = state) ∧
        m = taskCountSample s.Spec.Annotations.Name state (stateCount s.ID state tasks)) ∧
    taskCountSample s.Spec.Annotations.Name "running" (stateCount s.ID "running" tasks) ∈
      (emitTaskCount ρ s tasks).sent ∧
    (ownedCount s.ID tasks = 0 →
      (emitTaskCount ρ s tasks).sent = [taskCountSample s.Spec.Annotations.Name "running" 0]) ∧
    ((emitReplicaCount s).panicked = none →
      samplesOf taskCount (collectService ρ s tasks).sent = (emitTaskCount ρ s tasks).sent) := by
  have hmem : ∀ m : Metric, m ∈ (emitTaskCount ρ s tasks).sent ↔
      ∃ state : String,
        (state = "running" ∨ ∃ t ∈ tasks, t.ServiceID = s.ID ∧ t.Status.State = state) ∧
        m = taskCountSample s.Spec.Annotations.Name state (stateCount s.ID state tasks) := by
    intro m
    rw [emitTaskCount_eq]
    simp only [List.mem_map, (ρ.perm _).mem_iff]
    constructor
    · rintro ⟨⟨k, c⟩, he, rfl⟩
      rw [scanTasks_mem] at he
      exact ⟨k, he.1, by rw [he.2]⟩
    · rintro ⟨k, hk, rfl⟩
      exact ⟨(k, stateCount s.ID k tasks), (scanTasks_mem _ _ _ _).mpr ⟨hk, rfl⟩, rfl⟩
  refine ⟨by rw [emitTaskCount_eq], ?_, hmem, ?_, ?_, collectService_taskCount ρ s tasks⟩
  · rw [emitTaskCount_eq]
    apply List.Nodup.map (taskCountSample_injective _)
    rw [(ρ.perm _).nodup_iff]
    exact List.Nodup.of_map _ (scanTasks_nodup_keys s.ID tasks)
  · exact (hmem _).mpr ⟨"running", Or.inl rfl, rfl⟩
  · intro h0
    rw [emitTaskCount_eq, scanTasks_of_no_owned _ _ h0]
    have hp := ρ.perm ScanState.init.taskStates
    simp only [ScanState.init, List.perm_singleton] at hp
    simp [ScanState.init, hp]

/-- The `swarm_service_info` samples `Collect` sends are, in fetch order, those of the
first `k` fetched services, and of all fetched services when `Collect` completes. -/
theorem info_samples_one_per_service (ρ : Nat → RangeOrder) (services : List Service)
    (tasks : List Task) :
    (∃ k, k ≤ services.length ∧
      (samplesOf imageVersion
          (Collect ρ (Except.ok services) (Except.ok tasks)).sent).map some =
        (services.take k).map (fun s => s.Spec.TaskTemplate.ContainerSpec.map
          (fun c => infoSample s.Spec.Annotations.Name c.Image))) ∧
    ((Collect ρ (Except.ok services) (Except.ok tasks)).panicked = none →
      (samplesOf imageVersion
          (Collect ρ (Except.ok services) (Except.ok tasks)).sent).map some =
        services.map (fun s => s.Spec.TaskTemplate.ContainerSpec.map
          (fun c => infoSample s.Spec.Annotations.Name c.Image))) ∧
    (∀ name image : String, (infoSample name image).value = 1 ∧
      (infoSample name image).desc = imageVersion ∧
      (infoSample name image).labelValues = [name, image]) := by
  refine ⟨collectServices_info_initial ρ services tasks, ?_, fun _ _ => ⟨rfl, rfl, rfl⟩⟩
  intro h
  exact collectServices_info_of_completed ρ services tasks h

/-- When `Collect` completes, the values of all `swarm_service_tasks` samples add up to
the sum, over the tasks, of the number of fetched services carrying the task's
`ServiceID`; with pairwise distinct service IDs that is the number of non-orphan
tasks. -/
theorem task_counts_partition (ρ : Nat → RangeOrder) (services : List Service)
    (tasks : List Task) :
    ((Collect ρ (Except.ok services) (Except.ok tasks)).panicked = none →
      ((samplesOf taskCount (Collect ρ (Except.ok services) (Except.ok tasks)).sent).map
        (fun m => m.value)).sum = Int.ofNat ((tasks.map (carriers services)).sum)) ∧
    ((Collect ρ (Except.ok services) (Except.ok tasks)).panicked = none →
      (services.map (fun s => s.ID)).Nodup →
      ((samplesOf taskCount (Collect ρ (Except.ok services) (Except.ok tasks)).sent).map
        (fun m => m.value)).sum =
          Int.ofNat (tasks.countP (fun t => !isOrphan services t))) ∧
    ((services.map (fun s => s.ID)).Nodup →
      ∀ t : Task, carriers services t = if isOrphan services t = true then 0 else 1) ∧
    (∀ r : RangeOrder,
      (services.map (fun s => (((emitTaskCount r s tasks).sent).map (fun m => m.value)).sum)).sum =
        Int.ofNat ((tasks.map (carriers services)).sum)) := by
  refine ⟨?_, ?_, fun h t => carriers_of_nodup services h t, ?_⟩
  · intro h
    simp only [Collect] at h ⊢
    rw [collectServices_taskCount_total ρ services tasks h, ownedCount_sum_eq_carriers]
  · intro h hnd
    simp only [Collect] at h ⊢
    rw [collectServices_taskCount_total ρ services tasks h, ownedCount_sum_eq_carriers,
      carriers_sum_of_nodup services hnd]
  · intro r
    simp only [emitTaskCount_values_sum]
    rw [← ownedCount_sum_eq_carriers]
    induction services with
    | nil => rfl
    | cons s rest ih =>
      simp only [List.map_cons, List.sum_cons, ih]
      simp

/-! ## Claims -/

/-- C1 fails on the code: with a service without container spec fetched before `web`,
`Collect` panics on line 128 in the first iteration and sends no
`swarm_service_tasks` sample for `web`, although `web` owns a running task; and a
service in Replicated mode without replica count gets no `running` sample of its own,
`Collect` panicking on line 95. -/
theorem running_sample_missing :
    Collect (fun _ => RangeOrder.stored)
        (Except.ok [mkService "s1" "plugin" none none,
          mkService "s2" "web" (some ⟨some 3⟩) (some ⟨"nginx:1"⟩)])
        (Except.ok [mkTask "t1" "s2" "running" (Time.ofUnix 100)]) =
      ⟨[taskCountSample "plugin" "running" 0], some nilDereference⟩ ∧
    (¬ ∃ m ∈ (Collect (fun _ => RangeOrder.stored)
        (Except.ok [mkService "s1" "plugin" none none,
          mkService "s2" "web" (some ⟨some 3⟩) (some ⟨"nginx:1"⟩)])
        (Except.ok [mkTask "t1" "s2" "running" (Time.ofUnix 100)])).sent,
      m = taskCountSample "web" "running" 1) ∧
    Collect (fun _ => RangeOrder.stored)
        (Except.ok [mkService "s3" "db" (some ⟨none⟩) (some ⟨"postgres:16"⟩)])
        (Except.ok [mkTask "t1" "s3" "running" (Time.ofUnix 100)]) =
      ⟨[], some nilDereference⟩ := by
  refine ⟨by decide, by decide, by decide⟩

/-- C2 fails on the code: with a service without container spec fetched before `web`,
the `swarm_service_tasks` samples sent with the label `web` are none, so their values
add up to 0, while one task has the `ServiceID` of `web`. -/
theorem taskCount_sum_short :
    ((((Collect (fun _ => RangeOrder.reversed)
        (Except.ok [mkService "s1" "plugin" none none,
          mkService "s2" "web" none (some ⟨"nginx:1"⟩)])
        (Except.ok [mkTask "t1" "s2" "failed" (Time.ofUnix 100)])).sent.filter
      (fun m => decide (m.desc = taskCount) && decide (m.labelValues.head? = some "web"))).map
      (fun m => m.value)).sum = 0) ∧
    ownedCount (mkService "s2" "web" none (some ⟨"nginx:1"⟩)).ID
      [mkTask "t1" "s2" "failed" (Time.ofUnix 100)] = 1 ∧
    (Collect (fun _ => RangeOrder.reversed)
        (Except.ok [mkService "s1" "plugin" none none,
          mkService "s2" "web" none (some ⟨"nginx:1"⟩)])
        (Except.ok [mkTask "t1" "s2" "failed" (Time.ofUnix 100)])).panicked =
      some nilDereference := by
  refine ⟨by decide, by decide, by decide⟩

/-- C3: orphan tasks never affect the output.  Whatever the map iteration orders,
`Collect` on `(services, tasks)` has the same outcome (same samples in the same order,
same panic status) as on `(services, tasks without the orphans)`; and whether `Collect`
panics does not depend on the tasks at all, so no orphan task makes it fail. -/
theorem orphans_never_matter (ρ : Nat → RangeOrder) (services : List Service)
    (tasks : List Task) :
    Collect ρ (Except.ok services) (Except.ok tasks) =
      Collect ρ (Except.ok services)
        (Except.ok (tasks.filter (fun t => !isOrphan services t))) ∧
    (Collect ρ (Except.ok services) (Except.ok tasks)).panicked =
      (Collect ρ (Except.ok services)
        (Except.ok (tasks.filter (fun t => !isOrphan services t)))).panicked ∧
    (Collect ρ (Except.ok services) (Except.ok tasks)).panicked =
      (Collect ρ (Except.ok services) (Except.ok [])).panicked := by
  have key : Collect ρ (Except.ok services) (Except.ok tasks) =
      Collect ρ (Except.ok services)
        (Except.ok (tasks.filter (fun t => !isOrphan services t))) := by
    simp only [Collect]
    apply collectServices_congr
    intro s hs
    unfold scanTasks
    rw [foldl_scanStep_filter]
    intro t _ ho
    simp only [isOrphan, Bool.not_not, List.any_eq_true, decide_eq_true_eq]
    exact ⟨s, hs, ho.symm⟩
  refine ⟨key, by rw [← key], ?_⟩
  simp only [Collect]
  exact collectServices_panicked ρ services tasks []

/-- C4, as stated, fails: a replicated service with no task at all sends the
`swarm_service_change_time` sample with value `-62135596800` (the Unix seconds of
the zero `time.Time`), and no sample with value `0`. -/
theorem changeTime_no_tasks_not_zero :
    ownedCount "s1" [] = 0 ∧
    Collect (fun _ => RangeOrder.stored)
      (Except.ok [mkService "s1" "web" (some ⟨some 3⟩) (some ⟨"nginx:1"⟩)]) (Except.ok []) =
      ⟨[replicaSample "web" 3, taskCountSample "web" "running" 0, infoSample "web" "nginx:1",
        changeTimeSample "web" (-62135596800)], none⟩ ∧
    ¬ ∃ m ∈ (emitLastChangeTime (mkService "s1" "web" (some ⟨some 3⟩) (some ⟨"nginx:1"⟩)) []).sent,
        m.value = 0 := by
  refine ⟨by decide, by decide, by decide⟩

/-- C4, amended: in every run of `Collect` that completes, the
`swarm_service_change_time` samples sent are, in fetch order, one per fetched service;
for a service that owns no task the value is `-62135596800`, the Unix seconds of the
zero `time.Time` (January 1, year 1), and that sample is the only
`swarm_service_change_time` sample of the service's iteration. -/
theorem changeTime_no_tasks (ρ : Nat → RangeOrder) (services : List Service)
    (tasks : List Task)
    (h : (Collect ρ (Except.ok services) (Except.ok tasks)).panicked = none) :
    samplesOf lastChangeTime (Collect ρ (Except.ok services) (Except.ok tasks)).sent =
      services.map
        (fun s => changeTimeSample s.Spec.Annotations.Name (changeTimeValue s tasks)) ∧
    ∀ s ∈ services, ownedCount s.ID tasks = 0 →
      changeTimeValue s tasks = -62135596800 ∧
      changeTimeSample s.Spec.Annotations.Name (-62135596800) ∈
        (Collect ρ (Except.ok services) (Except.ok tasks)).sent ∧
      ∀ r : RangeOrder, samplesOf lastChangeTime (collectService r s tasks).sent =
        [changeTimeSample s.Spec.Annotations.Name (-62135596800)] := by
  simp only [Collect] at h ⊢
  have hseq := collectServices_changeTime_of_completed ρ services tasks h
  refine ⟨hseq, ?_⟩
  intro s hs h0
  have hv := changeTimeValue_of_no_owned s tasks h0
  refine ⟨hv, ?_, ?_⟩
  · have hmem : changeTimeSample s.Spec.Annotations.Name (-62135596800) ∈
        samplesOf lastChangeTime (collectServices ρ services tasks).sent := by
      rw [hseq]
      exact List.mem_map.mpr ⟨s, hs, by rw [hv]⟩
    unfold samplesOf at hmem
    exact (List.mem_filter.mp hmem).1
  · intro r
    rw [collectService_changeTime r s tasks
      (collectServices_iterations_completed ρ services tasks h s hs r), hv]

/-- Witness of C4 amended: `web` owns no task, the only fetched task belongs to
`agent`. -/
theorem changeTime_no_tasks_witness :
    (Collect (fun _ => RangeOrder.stored)
        (Except.ok [mkService "s1" "web" (some ⟨some 3⟩) (some ⟨"nginx:1"⟩),
          mkService "s2" "agent" none (some ⟨"agent:2"⟩)])
        (Except.ok [mkTask "t1" "s2" "running" (Time.ofUnix 100)])).panicked = none ∧
    ownedCount "s1" [mkTask "t1" "s2" "running" (Time.ofUnix 100)] = 0 ∧
    changeTimeSample "web" (-62135596800) ∈
      (Collect (fun _ => RangeOrder.stored)
        (Except.ok [mkService "s1" "web" (some ⟨some 3⟩) (some ⟨"nginx:1"⟩),
          mkService "s2" "agent" none (some ⟨"agent:2"⟩)])
        (Except.ok [mkTask "t1" "s2" "running" (Time.ofUnix 100)])).sent :=
  ⟨by decide, by decide,
   ((changeTime_no_tasks (fun _ => RangeOrder.stored)
      [mkService "s1" "web" (some ⟨some 3⟩) (some ⟨"nginx:1"⟩),
        mkService "s2" "agent" none (some ⟨"agent:2"⟩)]
      [mkTask "t1" "s2" "running" (Time.ofUnix 100)] (by decide)).2
      (mkService "s1" "web" (some ⟨some 3⟩) (some ⟨"nginx:1"⟩))
      (List.mem_cons_self _ _) (by decide)).2.1⟩

/-- C5, as stated, fails: a service whose only task changed state at
0000-12-31T23:59:59Z (one second before the zero `time.Time`) sends the change-time
value `-62135596800`, which is the Unix time of no task of the service; the maximum
over its tasks is `-62135596801`. -/
theorem changeTime_not_max_before_year_one :
    ownedCount "s1" [mkTask "t1" "s1" "running" ⟨-1, 0⟩] = 1 ∧
    emitLastChangeTime (mkService "s1" "web" none (some ⟨"nginx:1"⟩))
        [mkTask "t1" "s1" "running" ⟨-1, 0⟩] =
      ⟨[changeTimeSample "web" (-62135596800)], none⟩ ∧
    (mkTask "t1" "s1" "running" ⟨-1, 0⟩).Status.Timestamp.Unix = -62135596801 ∧
    ¬ ∃ t ∈ [mkTask "t1" "s1" "running" ⟨-1, 0⟩], t.ServiceID = "s1" ∧
        changeTimeValue (mkService "s1" "web" none (some ⟨"nginx:1"⟩))
          [mkTask "t1" "s1" "running" ⟨-1, 0⟩] = t.Status.Timestamp.Unix := by
  refine ⟨by decide, by decide, by decide, by decide⟩

/-- C5, amended: the value of the `swarm_service_change_time` sample sent for `s` is
the greatest of `-62135596800` (the Unix seconds of the zero `time.Time`, the initial
running maximum) and the Unix-second state timestamps of the tasks of `s`.  So it is
the maximum over the tasks of `s` as soon as one of them has a timestamp that is not
before the zero time.  One step of the task loop changes the running maximum only for
a task of `s` whose timestamp is strictly later.  An iteration that completes sends
this sample and no other `swarm_service_change_time` sample. -/
theorem changeTime_is_latest (s : Service) (tasks : List Task) :
    emitLastChangeTime s tasks =
      ⟨[changeTimeSample s.Spec.Annotations.Name (changeTimeValue s tasks)], none⟩ ∧
    Time.zero.Unix = -62135596800 ∧
    Time.zero.Unix ≤ changeTimeValue s tasks ∧
    (∀ t ∈ tasks, t.ServiceID = s.ID → t.Status.Timestamp.Unix ≤ changeTimeValue s tasks) ∧
    (changeTimeValue s tasks = Time.zero.Unix ∨
      ∃ t ∈ tasks, t.ServiceID = s.ID ∧ changeTimeValue s tasks = t.Status.Timestamp.Unix) ∧
    ((∃ t ∈ tasks, t.ServiceID = s.ID ∧ Time.zero.After t.Status.Timestamp = false) →
      ∃ t ∈ tasks, t.ServiceID = s.ID ∧ changeTimeValue s tasks = t.Status.Timestamp.Unix) ∧
    (∀ (st : ScanState) (t : Task),
      (scanStep s.ID st t).lastTaskStatusChange ≠ st.lastTaskStatusChange →
        t.ServiceID = s.ID ∧ t.Status.Timestamp.After st.lastTaskStatusChange = true ∧
          (scanStep s.ID st t).lastTaskStatusChange = t.Status.Timestamp) ∧
    (∀ ρ : RangeOrder, (collectService ρ s tasks).panicked = none →
      samplesOf lastChangeTime (collectService ρ s tasks).sent =
        [changeTimeSample s.Spec.Annotations.Name (changeTimeValue s tasks)]) := by
  refine ⟨emitLastChangeTime_value s tasks, rfl, changeTimeValue_ge_zero s tasks,
    fun t ht ho => changeTimeValue_ge_owned s tasks t ht ho, changeTimeValue_mem s tasks, ?_, ?_,
    fun ρ h => collectService_changeTime ρ s tasks h⟩
  · rintro ⟨t0, ht0, ho0, hz0⟩
    rcases changeTimeValue_mem s tasks with h | h
    · refine ⟨t0, ht0, ho0, ?_⟩
      have h1 := changeTimeValue_ge_owned s tasks t0 ht0 ho0
      have h2 := Unix_le_of_not_After _ _ hz0
      omega
    · exact h
  · intro st t hne
    by_cases ho : t.ServiceID = s.ID
    · rw [scanStep_owned s.ID st t ho] at hne ⊢
      by_cases ha : t.Status.Timestamp.After st.lastTaskStatusChange = true
      · exact ⟨ho, ha, by simp [ha]⟩
      · exact absurd (by simp [ha]) hne
    · rw [scanStep_other s.ID st t ho] at hne
      exact absurd rfl hne

/-- Witness of C5 amended: two tasks of the service, the later one at Unix time 150. -/
theorem changeTime_is_latest_witness :
    (∃ t ∈ [mkTask "t1" "s1" "running" (Time.ofUnix 100),
        mkTask "t2" "s1" "failed" (Time.ofUnix 150)],
      t.ServiceID = "s1" ∧ Time.zero.After t.Status.Timestamp = false) ∧
    (∃ t ∈ [mkTask "t1" "s1" "running" (Time.ofUnix 100),
        mkTask "t2" "s1" "failed" (Time.ofUnix 150)],
      t.ServiceID = "s1" ∧
        changeTimeValue (mkService "s1" "web" none (some ⟨"nginx:1"⟩))
          [mkTask "t1" "s1" "running" (Time.ofUnix 100),
            mkTask "t2" "s1" "failed" (Time.ofUnix 150)] = t.Status.Timestamp.Unix) :=
  ⟨⟨mkTask "t1" "s1" "running" (Time.ofUnix 100), by decide, by decide, by decide⟩,
   (changeTime_is_latest (mkService "s1" "web" none (some ⟨"nginx:1"⟩))
      [mkTask "t1" "s1" "running" (Time.ofUnix 100),
        mkTask "t2" "s1" "failed" (Time.ofUnix 150)]).2.2.2.2.2.1
      ⟨mkTask "t1" "s1" "running" (Time.ofUnix 100), by decide, by decide, by decide⟩⟩

/-- C6, as stated, fails: a service in Replicated mode with 9007199254740993 desired
replicas (a `uint64` value) gets a `swarm_service_desired_replicas` sample whose value
is `float64(9007199254740993) = 9007199254740992`, not the desired count. -/
theorem desiredReplicas_rounded :
    Collect (fun _ => RangeOrder.stored)
        (Except.ok [mkService "s1" "web" (some ⟨some 9007199254740993⟩) (some ⟨"nginx:1"⟩)])
        (Except.ok []) =
      ⟨[replicaSample "web" 9007199254740992, taskCountSample "web" "running" 0,
        infoSample "web" "nginx:1", changeTimeSample "web" (-62135596800)], none⟩ ∧
    (9007199254740993 : Nat) < 2 ^ 64 ∧
    ¬ ∃ m ∈ (Collect (fun _ => RangeOrder.stored)
        (Except.ok [mkService "s1" "web" (some ⟨some 9007199254740993⟩) (some ⟨"nginx:1"⟩)])
        (Except.ok [])).sent, m.desc = replicaCount ∧ m.value = 9007199254740993 := by
  refine ⟨by decide, by decide, by decide⟩

/-- C6, amended: in every run of `Collect` that completes, the
`swarm_service_desired_replicas` samples sent are, in fetch order, those of the fetched
services: none for a service whose mode is not Replicated, and for a service in
Replicated mode with desired count `n` exactly one, labelled with the service name,
whose value is `float64(n)`, which is `n` itself when `n ≤ 2^53`.  They are also the
only `swarm_service_desired_replicas` samples of the service's own iteration. -/
theorem desiredReplicas_iff_replicated (ρ : Nat → RangeOrder) (services : List Service)
    (tasks : List Task)
    (h : (Collect ρ (Except.ok services) (Except.ok tasks)).panicked = none) :
    samplesOf replicaCount (Collect ρ (Except.ok services) (Except.ok tasks)).sent =
      (services.map replicaBlock).flatten ∧
    (∀ s ∈ services,
      (s.Spec.Mode.Replicated = none ∧ replicaBlock s = []) ∨
      (∃ n : Nat, s.Spec.Mode.Replicated = some ⟨some n⟩ ∧
        replicaBlock s = [replicaSample s.Spec.Annotations.Name (float64 n)] ∧
        (n ≤ 2 ^ 53 → float64 n = n))) ∧
    (∀ s ∈ services, ∀ r : RangeOrder,
      samplesOf replicaCount (collectService r s tasks).sent = replicaBlock s) := by
  simp only [Collect] at h ⊢
  refine ⟨collectServices_replicas_of_completed ρ services tasks h, ?_, ?_⟩
  · intro s hs
    have hc := collectServices_iterations_completed ρ services tasks h s hs RangeOrder.stored
    rcases replicated_of_completed RangeOrder.stored s tasks hc with hm | ⟨n, hm⟩
    · exact Or.inl ⟨hm, replicaBlock_of_global s hm⟩
    · exact Or.inr ⟨n, hm, replicaBlock_of_replicas s n hm, float64_of_le n⟩
  · intro s hs r
    have hc := collectServices_iterations_completed ρ services tasks h s hs r
    have hr : (emitReplicaCount s).panicked = none := by
      unfold collectService at hc
      exact ((andThen_panicked_none _ _).mp hc).1
    exact collectService_replicas r s tasks hr

/-- Witness of C6 amended: a replicated service with three desired replicas, and a
global service. -/
theorem desiredReplicas_iff_replicated_witness :
    (Collect (fun _ => RangeOrder.stored)
        (Except.ok [mkService "s1" "web" (some ⟨some 3⟩) (some ⟨"nginx:1"⟩),
          mkService "s2" "agent" none (some ⟨"agent:2"⟩)])
        (Except.ok [mkTask "t1" "s1" "running" (Time.ofUnix 100)])).panicked = none ∧
    samplesOf replicaCount (Collect (fun _ => RangeOrder.stored)
        (Except.ok [mkService "s1" "web" (some ⟨some 3⟩) (some ⟨"nginx:1"⟩),
          mkService "s2" "agent" none (some ⟨"agent:2"⟩)])
        (Except.ok [mkTask "t1" "s1" "running" (Time.ofUnix 100)])).sent =
      [replicaSample "web" 3] :=
  ⟨by decide,
   (desiredReplicas_iff_replicated (fun _ => RangeOrder.stored)
      [mkService "s1" "web" (some ⟨some 3⟩) (some ⟨"nginx:1"⟩),
        mkService "s2" "agent" none (some ⟨"agent:2"⟩)]
      [mkTask "t1" "s1" "running" (Time.ofUnix 100)] (by decide)).1⟩

/-- C7, as stated, fails: when listing the services fails, `Collect` does not end
without a panic; it panics with the fetch error (and likewise when listing the tasks
fails). -/
theorem fetch_error_is_panic :
    ¬ ((Collect (fun _ => RangeOrder.stored) (Except.error "connection refused")
          (Except.ok [])).panicked = none) ∧
    Collect (fun _ => RangeOrder.stored) (Except.error "connection refused") (Except.ok []) =
      ⟨[], some "connection refused"⟩ ∧
    Collect (fun _ => RangeOrder.stored)
        (Except.ok [mkService "s1" "web" (some ⟨some 3⟩) (some ⟨"nginx:1"⟩)])
        (Except.error "connection refused") =
      ⟨[], some "connection refused"⟩ := by
  refine ⟨by decide, by decide, by decide⟩

/-- C7, amended: when either fetch returns an error, `Collect` sends no sample and
panics with that error.  `Collect` reads nothing but the results of its own two
fetches: with successful fetches its outcome is that of the service loop on the
fetched lists. -/
theorem fetch_error_outcome (ρ : Nat → RangeOrder) (err : String)
    (services : List Service) (tasks : List Task) (TaskList : Except String (List Task)) :
    Collect ρ (Except.error err) TaskList = ⟨[], some err⟩ ∧
    Collect ρ (Except.ok services) (Except.error err) = ⟨[], some err⟩ ∧
    Collect ρ (Except.ok services) (Except.ok tasks) = collectServices ρ services tasks :=
  ⟨rfl, rfl, rfl⟩

/-- C8 fails on the code: a service whose task template has no container spec makes
`Collect` panic on line 128 after the task samples of that service were sent, and
nothing is sent for the services after it; a service in Replicated mode without a
replica count makes it panic on line 95 before anything is sent. -/
theorem malformed_service_panics :
    Collect (fun _ => RangeOrder.stored)
        (Except.ok [mkService "s1" "plugin" none none,
          mkService "s2" "web" (some ⟨some 3⟩) (some ⟨"nginx:1"⟩)]) (Except.ok []) =
      ⟨[taskCountSample "plugin" "running" 0], some nilDereference⟩ ∧
    Collect (fun _ => RangeOrder.stored)
        (Except.ok [mkService "s1" "web" (some ⟨none⟩) (some ⟨"nginx:1"⟩)]) (Except.ok []) =
      ⟨[], some nilDereference⟩ := by
  refine ⟨by decide, by decide⟩

/-- C9 fails on the code: with a service without container spec fetched first,
`Collect` panics on line 128 and sends no `swarm_service_info` sample at all, although
two services were fetched; both services are dropped. -/
theorem info_samples_dropped :
    samplesOf imageVersion (Collect (fun _ => RangeOrder.stored)
        (Except.ok [mkService "s1" "plugin" none none,
          mkService "s2" "web" (some ⟨some 3⟩) (some ⟨"nginx:1"⟩)])
        (Except.ok [mkTask "t1" "s2" "running" (Time.ofUnix 100),
          mkTask "t2" "s1" "running" (Time.ofUnix 150)])).sent = [] ∧
    [mkService "s1" "plugin" none none,
      mkService "s2" "web" (some ⟨some 3⟩) (some ⟨"nginx:1"⟩)].length = 2 ∧
    (Collect (fun _ => RangeOrder.stored)
        (Except.ok [mkService "s1" "plugin" none none,
          mkService "s2" "web" (some ⟨some 3⟩) (some ⟨"nginx:1"⟩)])
        (Except.ok [mkTask "t1" "s2" "running" (Time.ofUnix 100),
          mkTask "t2" "s1" "running" (Time.ofUnix 150)])).panicked = some nilDereference := by
  refine ⟨by decide, by decide, by decide⟩

/-- C10, as stated, fails in its second half: a new task of `s` that changed state at
0000-12-31T00:00:00Z is strictly later than every task of `s` fetched so far (there is
none), yet the value sent is `-62135596800`, not the task's Unix time `-62135683200`. -/
theorem changeTime_new_task_before_year_one :
    (mkTask "t9" "s1" "running" ⟨-86400, 0⟩).ServiceID =
      (mkService "s1" "web" none (some ⟨"nginx:1"⟩)).ID ∧
    (∀ t' ∈ [mkTask "t1" "s2" "running" (Time.ofUnix 100)],
      t'.ServiceID = (mkService "s1" "web" none (some ⟨"nginx:1"⟩)).ID →
        (mkTask "t9" "s1" "running" ⟨-86400, 0⟩).Status.Timestamp.After
          t'.Status.Timestamp = true) ∧
    changeTimeValue (mkService "s1" "web" none (some ⟨"nginx:1"⟩))
      ([mkTask "t1" "s2" "running" (Time.ofUnix 100)] ++
        [mkTask "t9" "s1" "running" ⟨-86400, 0⟩]) = -62135596800 ∧
    (mkTask "t9" "s1" "running" ⟨-86400, 0⟩).Status.Timestamp.Unix = -62135683200 := by
  refine ⟨by decide, by decide, by decide, by decide⟩

/-- C10, amended: the change-time value sent for `s` never decreases when one task
`t` is added anywhere to the task list; and if `t` belongs to `s`, its timestamp is
strictly later than that of every task of `s` already in the list and is not before
the zero `time.Time`, the new value is the Unix seconds of `t`'s timestamp. -/
theorem changeTime_monotone (s : Service) (ts₁ ts₂ : List Task) (t : Task) :
    changeTimeValue s (ts₁ ++ ts₂) ≤ changeTimeValue s (ts₁ ++ t :: ts₂) ∧
    (t.ServiceID = s.ID →
      (∀ t' ∈ ts₁ ++ ts₂, t'.ServiceID = s.ID →
        t.Status.Timestamp.After t'.Status.Timestamp = true) →
      Time.zero.After t.Status.Timestamp = false →
      changeTimeValue s (ts₁ ++ t :: ts₂) = t.Status.Timestamp.Unix) := by
  have hsub : ∀ t' ∈ ts₁ ++ ts₂, t' ∈ ts₁ ++ t :: ts₂ := by
    intro t' ht'
    rcases List.mem_append.mp ht' with h | h
    · exact List.mem_append_left _ h
    · exact List.mem_append_right _ (List.mem_cons_of_mem _ h)
  constructor
  · rcases changeTimeValue_mem s (ts₁ ++ ts₂) with h | ⟨t', ht', ho', h⟩
    · rw [h]
      exact changeTimeValue_ge_zero s _
    · rw [h]
      exact changeTimeValue_ge_owned s _ t' (hsub t' ht') ho'
  · intro ho hlater hzero
    have hmem : t ∈ ts₁ ++ t :: ts₂ := List.mem_append_right _ (List.mem_cons_self _ _)
    have hge := changeTimeValue_ge_owned s _ t hmem ho
    rcases changeTimeValue_mem s (ts₁ ++ t :: ts₂) with h | ⟨t', ht', ho', h⟩
    · have h2 := Unix_le_of_not_After _ _ hzero
      omega
    · rcases List.mem_append.mp ht' with h1 | h1
      · have h3 := Unix_le_of_not_After _ _
          (not_After_of_After _ _ (hlater t' (List.mem_append_left _ h1) ho'))
        omega
      · rcases List.mem_cons.mp h1 with h4 | h4
        · rw [h, h4]
        · have h3 := Unix_le_of_not_After _ _
            (not_After_of_After _ _ (hlater t' (List.mem_append_right _ h4) ho'))
          omega

/-- Witness of C10 amended: a task at Unix time 150 is added before a task at Unix
time 100 of the same service. -/
theorem changeTime_monotone_witness :
    (mkTask "t2" "s1" "failed" (Time.ofUnix 150)).ServiceID =
      (mkService "s1" "web" none (some ⟨"nginx:1"⟩)).ID ∧
    Time.zero.After (mkTask "t2" "s1" "failed" (Time.ofUnix 150)).Status.Timestamp = false ∧
    changeTimeValue (mkService "s1" "web" none (some ⟨"nginx:1"⟩))
      ([] ++ mkTask "t2" "s1" "failed" (Time.ofUnix 150) ::
        [mkTask "t1" "s1" "running" (Time.ofUnix 100)]) =
      (mkTask "t2" "s1" "failed" (Time.ofUnix 150)).Status.Timestamp.Unix :=
  ⟨by decide, by decide,
   (changeTime_monotone (mkService "s1" "web" none (some ⟨"nginx:1"⟩)) []
      [mkTask "t1" "s1" "running" (Time.ofUnix 100)]
      (mkTask "t2" "s1" "failed" (Time.ofUnix 150))).2 (by decide) (by decide) (by decide)⟩

/-- C11: on services = [web, Replicated with 3 replicas, image `nginx:1`] and
tasks = [web/running/100, web/running/150, ghost/failed/999], `Collect` completes and
sends, whatever the map iteration order, exactly `desired_replicas = 3`,
`tasks{running} = 2`, `info{nginx:1} = 1` and `change_time = 150`, all labelled `web`;
there is no `failed` sample and nothing for the ghost task. -/
theorem web_scenario (ρ : Nat → RangeOrder) :
    Collect ρ (Except.ok [mkService "web" "web" (some ⟨some 3⟩) (some ⟨"nginx:1"⟩)])
        (Except.ok [mkTask "t1" "web" "running" (Time.ofUnix 100),
          mkTask "t2" "web" "running" (Time.ofUnix 150),
          mkTask "t3" "ghost" "failed" (Time.ofUnix 999)]) =
      ⟨[replicaSample "web" 3, taskCountSample "web" "running" 2,
        infoSample "web" "nginx:1", changeTimeSample "web" 150], none⟩ := by
  have hscan : scanTasks "web" [mkTask "t1" "web" "running" (Time.ofUnix 100),
      mkTask "t2" "web" "running" (Time.ofUnix 150),
      mkTask "t3" "ghost" "failed" (Time.ofUnix 999)] =
      ⟨[("running", 2)], Time.ofUnix 150⟩ := by decide
  have hiter : (ρ 0).iter [("running", 2)] = [("running", 2)] :=
    List.perm_singleton.mp ((ρ 0).perm _)
  have hr : (emitReplicaCount (mkService "web" "web" (some ⟨some 3⟩)
      (some ⟨"nginx:1"⟩))).panicked = none := by decide
  simp only [Collect, collectServices]
  rw [collectService_eq _ _ _ hr, emitTaskCount_eq]
  have hid : (mkService "web" "web" (some ⟨some 3⟩) (some ⟨"nginx:1"⟩)).ID = "web" := rfl
  rw [hid, hscan]
  simp only [hiter]
  decide

/-- C12, as stated, fails in its last part: two runs of `Collect` on the same fetched
lists, both completing, send different sequences when the map of a service with a
running and a failed task is visited in two different orders. -/
theorem two_runs_differ :
    (Collect (fun _ => RangeOrder.stored)
      (Except.ok [mkService "s1" "web" none (some ⟨"nginx:1"⟩)])
      (Except.ok [mkTask "t1" "s1" "running" (Time.ofUnix 100),
        mkTask "t2" "s1" "failed" (Time.ofUnix 150)])) =
      ⟨[taskCountSample "web" "running" 1, taskCountSample "web" "failed" 1,
        infoSample "web" "nginx:1", changeTimeSample "web" 150], none⟩ ∧
    (Collect (fun _ => RangeOrder.reversed)
      (Except.ok [mkService "s1" "web" none (some ⟨"nginx:1"⟩)])
      (Except.ok [mkTask "t1" "s1" "running" (Time.ofUnix 100),
        mkTask "t2" "s1" "failed" (Time.ofUnix 150)])) =
      ⟨[taskCountSample "web" "failed" 1, taskCountSample "web" "running" 1,
        infoSample "web" "nginx:1", changeTimeSample "web" 150], none⟩ ∧
    (Collect (fun _ => RangeOrder.stored)
      (Except.ok [mkService "s1" "web" none (some ⟨"nginx:1"⟩)])
      (Except.ok [mkTask "t1" "s1" "running" (Time.ofUnix 100),
        mkTask "t2" "s1" "failed" (Time.ofUnix 150)])).sent ≠
    (Collect (fun _ => RangeOrder.reversed)
      (Except.ok [mkService "s1" "web" none (some ⟨"nginx:1"⟩)])
      (Except.ok [mkTask "t1" "s1" "running" (Time.ofUnix 100),
        mkTask "t2" "s1" "failed" (Time.ofUnix 150)])).sent := by
  refine ⟨by decide, by decide, by decide⟩

/-- C12, amended: when `Collect` completes, the sequence it sends is the concatenation,
in service fetch order, of one block per service: the optional desired-replicas sample,
the task-count samples in the order the map was visited, the info sample, the
change-time sample.  Two runs on the same fetched lists complete or panic alike, and
their sequences of blocks differ at most by the order of the task-count samples inside
each block; runs that visit the maps in the same orders send the same sequence. -/
theorem collect_is_block_concatenation (ρ ρ' : Nat → RangeOrder) (services : List Service)
    (tasks : List Task) :
    ((Collect ρ (Except.ok services) (Except.ok tasks)).panicked = none →
      (Collect ρ (Except.ok services) (Except.ok tasks)).sent =
        serviceBlocks ρ services tasks) ∧
    (Collect ρ (Except.ok services) (Except.ok tasks)).panicked =
      (Collect ρ' (Except.ok services) (Except.ok tasks)).panicked ∧
    (∀ (r r' : RangeOrder) (s : Service),
      List.Perm (taskBlock r s tasks) (taskBlock r' s tasks)) ∧
    List.Perm (serviceBlocks ρ services tasks) (serviceBlocks ρ' services tasks) ∧
    ((∀ i m, (ρ i).iter m = (ρ' i).iter m) →
      Collect ρ (Except.ok services) (Except.ok tasks) =
        Collect ρ' (Except.ok services) (Except.ok tasks)) := by
  refine ⟨fun h => collectServices_sent_of_completed ρ services tasks h,
    collectServices_panicked_order ρ ρ' services tasks,
    fun r r' s => taskBlock_perm r r' s tasks,
    serviceBlocks_perm ρ ρ' services tasks, ?_⟩
  intro h
  have hρ : ρ = ρ' := funext (fun i => RangeOrder.eq_of_iter _ _ (h i))
  rw [hρ]

/-- Witness of C12 amended: a replicated service with a running and a failed task,
and a global service without tasks, the maps visited back to front. -/
theorem collect_is_block_concatenation_witness :
    (Collect (fun _ => RangeOrder.reversed)
      (Except.ok [mkService "s1" "web" (some ⟨some 2⟩) (some ⟨"nginx:1"⟩),
        mkService "s2" "agent" none (some ⟨"agent:2"⟩)])
      (Except.ok [mkTask "t1" "s1" "running" (Time.ofUnix 100),
        mkTask "t2" "s1" "failed" (Time.ofUnix 150)])).panicked = none ∧
    (Collect (fun _ => RangeOrder.reversed)
      (Except.ok [mkService "s1" "web" (some ⟨some 2⟩) (some ⟨"nginx:1"⟩),
        mkService "s2" "agent" none (some ⟨"agent:2"⟩)])
      (Except.ok [mkTask "t1" "s1" "running" (Time.ofUnix 100),
        mkTask "t2" "s1" "failed" (Time.ofUnix 150)])).sent =
      serviceBlocks (fun _ => RangeOrder.reversed)
        [mkService "s1" "web" (some ⟨some 2⟩) (some ⟨"nginx:1"⟩),
          mkService "s2" "agent" none (some ⟨"agent:2"⟩)]
        [mkTask "t1" "s1" "running" (Time.ofUnix 100),
          mkTask "t2" "s1" "failed" (Time.ofUnix 150)] :=
  ⟨by decide,
   (collect_is_block_concatenation (fun _ => RangeOrder.reversed) (fun _ => RangeOrder.stored)
      [mkService "s1" "web" (some ⟨some 2⟩) (some ⟨"nginx:1"⟩),
        mkService "s2" "agent" none (some ⟨"agent:2"⟩)]
      [mkTask "t1" "s1" "running" (Time.ofUnix 100),
        mkTask "t2" "s1" "failed" (Time.ofUnix 150)]).1 (by decide)⟩

/-- C13, as stated, fails for the last-change time: for a service without tasks the
specified algorithm yields the epoch (a `change_time` of 0), the scan of `Collect`
yields the zero `time.Time` (a `change_time` of `-62135596800`); the state counts
agree. -/
theorem spec_last_change_is_epoch :
    (specSnapshot [mkService "s1" "web" (some ⟨some 3⟩) (some ⟨"nginx:1"⟩)] []
      (mkService "s1" "web" (some ⟨some 3⟩) (some ⟨"nginx:1"⟩))).LastChangeTime.Unix = 0 ∧
    (scanTasks (mkService "s1" "web" (some ⟨some 3⟩) (some ⟨"nginx:1"⟩)).ID
      []).lastTaskStatusChange.Unix = -62135596800 ∧
    (specSnapshot [mkService "s1" "web" (some ⟨some 3⟩) (some ⟨"nginx:1"⟩)] []
      (mkService "s1" "web" (some ⟨some 3⟩) (some ⟨"nginx:1"⟩))).LastChangeTime ≠
    (scanTasks (mkService "s1" "web" (some ⟨some 3⟩) (some ⟨"nginx:1"⟩)).ID
      []).lastTaskStatusChange ∧
    (specSnapshot [mkService "s1" "web" (some ⟨some 3⟩) (some ⟨"nginx:1"⟩)] []
      (mkService "s1" "web" (some ⟨some 3⟩) (some ⟨"nginx:1"⟩))).TaskStateCounts "running" =
    mapGet (scanTasks (mkService "s1" "web" (some ⟨some 3⟩) (some ⟨"nginx:1"⟩)).ID
      []).taskStates "running" := by
  refine ⟨by decide, by decide, by decide, by decide⟩

/-- C13, amended: for every list of services and tasks the specified algorithm (group
the tasks by `ServiceID` in one pass, drop the groups of unknown services, fold each
service's group) and the per-service scan of `Collect` compute, service by service in
fetch order, the same state counts.  The last change time of the specified algorithm
is the later of the epoch and the last change time of the scan; the two are equal for
every service that owns a task whose timestamp is not before the epoch. -/
theorem scan_refines_grouping (services : List Service) (tasks : List Task) :
    (specAggregate services tasks).map (fun snap => snap.TaskStateCounts) =
      services.map (fun s => mapGet (scanTasks s.ID tasks).taskStates) ∧
    (∀ s ∈ services, (specSnapshot services tasks s).LastChangeTime =
      if (Time.ofUnix 0).After (scanTasks s.ID tasks).lastTaskStatusChange = true then
        Time.ofUnix 0
      else (scanTasks s.ID tasks).lastTaskStatusChange) ∧
    (∀ s ∈ services,
      (∃ t ∈ tasks, t.ServiceID = s.ID ∧ (Time.ofUnix 0).After t.Status.Timestamp = false) →
      (specSnapshot services tasks s).LastChangeTime =
        (scanTasks s.ID tasks).lastTaskStatusChange) := by
  refine ⟨?_, fun s hs => specSnapshot_last services tasks s hs, ?_⟩
  · unfold specAggregate
    rw [List.map_map]
    apply List.map_congr_left
    intro s hs
    exact specSnapshot_counts services tasks s hs
  · rintro s hs ⟨t, ht, ho, hz⟩
    rw [specSnapshot_last services tasks s hs]
    have hge := foldl_scanStep_last_ge_owned s.ID tasks ScanState.init t ht ho
    have hne : ¬ (Time.ofUnix 0).After (scanTasks s.ID tasks).lastTaskStatusChange = true := by
      have h1 := not_After_trans _ _ _ hz hge
      unfold scanTasks
      rw [h1]
      simp
    rw [if_neg hne]

/-- Witness of C13 amended: `web` owns tasks at Unix times 100 and 150; both algorithms
give 150 as last change time. -/
theorem scan_refines_grouping_witness :
    (∃ t ∈ [mkTask "t1" "s1" "running" (Time.ofUnix 100),
        mkTask "t2" "s1" "failed" (Time.ofUnix 150), mkTask "t3" "ghost" "failed" (Time.ofUnix 999)],
      t.ServiceID = (mkService "s1" "web" (some ⟨some 3⟩) (some ⟨"nginx:1"⟩)).ID ∧
        (Time.ofUnix 0).After t.Status.Timestamp = false) ∧
    (specSnapshot [mkService "s1" "web" (some ⟨some 3⟩) (some ⟨"nginx:1"⟩)]
      [mkTask "t1" "s1" "running" (Time.ofUnix 100),
        mkTask "t2" "s1" "failed" (Time.ofUnix 150), mkTask "t3" "ghost" "failed" (Time.ofUnix 999)]
      (mkService "s1" "web" (some ⟨some 3⟩) (some ⟨"nginx:1"⟩))).LastChangeTime =
    (scanTasks (mkService "s1" "web" (some ⟨some 3⟩) (some ⟨"nginx:1"⟩)).ID
      [mkTask "t1" "s1" "running" (Time.ofUnix 100),
        mkTask "t2" "s1" "failed" (Time.ofUnix 150),
        mkTask "t3" "ghost" "failed" (Time.ofUnix 999)]).lastTaskStatusChange :=
  ⟨⟨mkTask "t1" "s1" "running" (Time.ofUnix 100), by decide, by decide, by decide⟩,
   (scan_refines_grouping [mkService "s1" "web" (some ⟨some 3⟩) (some ⟨"nginx:1"⟩)]
      [mkTask "t1" "s1" "running" (Time.ofUnix 100),
        mkTask "t2" "s1" "failed" (Time.ofUnix 150),
        mkTask "t3" "ghost" "failed" (Time.ofUnix 999)]).2.2
      (mkService "s1" "web" (some ⟨some 3⟩) (some ⟨"nginx:1"⟩)) (List.mem_cons_self _ _)
      ⟨mkTask "t1" "s1" "running" (Time.ofUnix 100), by decide, by decide, by decide⟩⟩

/-- C14: every sample `Collect` sends is, for some fetched service, one of the four
samples built from that service: its descriptor is one of the four that `Describe`
announces and it carries as many label values as the descriptor declares label names,
in the declared order (`[Name]`, `[Name, state]`, `[Name, image]`, `[Name]`).  The four
calls of `MustNewConstMetric` succeed for all arguments, so `Collect` never panics on a
label-count mismatch.  `Describe` announces exactly the four descriptors, with the
names and label names of the specification. -/
theorem samples_match_descriptors (ρ : Nat → RangeOrder) (services : List Service)
    (tasks : List Task) :
    (∀ m ∈ (Collect ρ (Except.ok services) (Except.ok tasks)).sent,
      m.desc ∈ Describe ∧ m.labelValues.length = m.desc.variableLabels.length ∧
        ∃ s ∈ services, IsSampleOf s m) ∧
    (Collect ρ (Except.ok services) (Except.ok tasks)).panicked ≠
      some "inconsistent label cardinality" ∧
    (∀ (value : Int) (name other : String),
      MustNewConstMetric replicaCount value [name] = Except.ok ⟨replicaCount, value, [name]⟩ ∧
      MustNewConstMetric taskCount value [name, other] =
        Except.ok ⟨taskCount, value, [name, other]⟩ ∧
      MustNewConstMetric imageVersion value [name, other] =
        Except.ok ⟨imageVersion, value, [name, other]⟩ ∧
      MustNewConstMetric lastChangeTime value [name] =
        Except.ok ⟨lastChangeTime, value, [name]⟩) ∧
    Describe = [replicaCount, taskCount, imageVersion, lastChangeTime] ∧
    Describe.map (fun d => (d.fqName, d.variableLabels)) =
      [("swarm_service_desired_replicas", ["service_name"]),
       ("swarm_service_tasks", ["service_name", "state"]),
       ("swarm_service_info", ["service_name", "image"]),
       ("swarm_service_change_time", ["service_name"])] := by
  refine ⟨?_, ?_, fun _ _ _ => ⟨rfl, rfl, rfl, rfl⟩, rfl, rfl⟩
  · intro m hm
    obtain ⟨s, hs, hform⟩ := mem_collectServices_sent ρ services tasks m hm
    exact ⟨(IsSampleOf.well_formed s m hform).1, (IsSampleOf.well_formed s m hform).2,
      s, hs, hform⟩
  · have h := collectServices_panic_message ρ services tasks
    simp only [Collect]
    rcases h with h | h
    · rw [h]
      simp
    · rw [h]
      decide

/-- C15: the result does not depend on the order of the fetched tasks.  For two task
lists that are permutations of each other and every service `s`, the task loop yields
the same count for every state (the same map entries), `Collect` sends the same
`swarm_service_tasks` samples for `s` up to the map iteration order, and the same
`swarm_service_change_time` sample. -/
theorem task_order_irrelevant (s : Service) (tasks tasks' : List Task)
    (h : tasks.Perm tasks') :
    (∀ state : String, mapGet (scanTasks s.ID tasks).taskStates state =
      mapGet (scanTasks s.ID tasks').taskStates state) ∧
    List.Perm (scanTasks s.ID tasks).taskStates (scanTasks s.ID tasks').taskStates ∧
    (∀ ρ ρ' : RangeOrder,
      List.Perm (emitTaskCount ρ s tasks).sent (emitTaskCount ρ' s tasks').sent) ∧
    changeTimeValue s tasks = changeTimeValue s tasks' ∧
    emitLastChangeTime s tasks = emitLastChangeTime s tasks' := by
  have hlast := scanTasks_last_perm s.ID tasks tasks' h
  refine ⟨fun k => scanTasks_mapGet_perm s.ID tasks tasks' h k,
    scanTasks_taskStates_perm s.ID tasks tasks' h, ?_, ?_, ?_⟩
  · intro ρ ρ'
    rw [emitTaskCount_eq, emitTaskCount_eq]
    exact List.Perm.map _
      (((ρ.perm _).trans (scanTasks_taskStates_perm s.ID tasks tasks' h)).trans (ρ'.perm _).symm)
  · unfold changeTimeValue
    rw [hlast]
  · rw [emitLastChangeTime_eq, emitLastChangeTime_eq, hlast]

/-- Witness of C15: the same three tasks fetched in two orders; the stored maps differ
in entry order, the counts and the change time do not. -/
theorem task_order_irrelevant_witness :
    List.Perm
      [mkTask "t1" "s1" "failed" (Time.ofUnix 150), mkTask "t2" "s1" "running" (Time.ofUnix 100),
        mkTask "t3" "s2" "running" (Time.ofUnix 999)]
      [mkTask "t2" "s1" "running" (Time.ofUnix 100), mkTask "t1" "s1" "failed" (Time.ofUnix 150),
        mkTask "t3" "s2" "running" (Time.ofUnix 999)] ∧
    changeTimeValue (mkService "s1" "web" none (some ⟨"nginx:1"⟩))
      [mkTask "t1" "s1" "failed" (Time.ofUnix 150), mkTask "t2" "s1" "running" (Time.ofUnix 100),
        mkTask "t3" "s2" "running" (Time.ofUnix 999)] =
    changeTimeValue (mkService "s1" "web" none (some ⟨"nginx:1"⟩))
      [mkTask "t2" "s1" "running" (Time.ofUnix 100), mkTask "t1" "s1" "failed" (Time.ofUnix 150),
        mkTask "t3" "s2" "running" (Time.ofUnix 999)] :=
  ⟨List.Perm.swap _ _ _,
   (task_order_irrelevant (mkService "s1" "web" none (some ⟨"nginx:1"⟩)) _ _
      (List.Perm.swap _ _ _)).2.2.2.1⟩

/-- C16 fails on the code: the two fetched services have distinct IDs and one task is
not an orphan, yet the values of all `swarm_service_tasks` samples `Collect` sends add
up to 0, because `Collect` panics on line 128 in the iteration of the service without
container spec and never reaches `web`. -/
theorem task_counts_total_short :
    ([mkService "s1" "plugin" none none,
      mkService "s2" "web" none (some ⟨"nginx:1"⟩)].map (fun s => s.ID)).Nodup ∧
    ((samplesOf taskCount (Collect (fun _ => RangeOrder.stored)
        (Except.ok [mkService "s1" "plugin" none none,
          mkService "s2" "web" none (some ⟨"nginx:1"⟩)])
        (Except.ok [mkTask "t1" "s2" "running" (Time.ofUnix 100),
          mkTask "t2" "ghost" "failed" (Time.ofUnix 999)])).sent).map
      (fun m => m.value)).sum = 0 ∧
    [mkTask "t1" "s2" "running" (Time.ofUnix 100),
      mkTask "t2" "ghost" "failed" (Time.ofUnix 999)].countP
      (fun t => !isOrphan [mkService "s1" "plugin" none none,
        mkService "s2" "web" none (some ⟨"nginx:1"⟩)] t) = 1 := by
  refine ⟨by decide, by decide, by decide⟩

end SwarmExporter
